import Mathlib

/-!
Shallow embedding of the per-user session orchestration core of the
repository (orchestrator/fsm.py, orchestrator/nodes.py, orchestrator/main.py)
together with proofs of the frozen specification claims.

Modelling conventions:
* Python values that arrive through JSON (request payloads, upstream
  responses, stored context/quiz records) are modelled by the inductive
  `JVal`.  JSON numbers are restricted to integers: floating point is
  outside the scope of the embedding.
* The Redis store is modelled per user (the source namespaces every key by
  the user id, so stores of distinct users never interact).  A key is
  either absent (`none`, which also models an expired record) or holds a
  value together with the TTL that was last set for it.
* `json.dumps(..., ensure_ascii=False)` / `json.loads` of the Python
  standard library are modelled by `dumpsV` / `loads` below.  The model
  covers the JSON fragment actually exchanged by the program: integers,
  strings (with the short escape sequences emitted by CPython), booleans,
  null, arrays and objects.  Floats, `\uXXXX` escapes and bare control
  characters are outside the model.
-/

/-- A JSON-like Python value (result of `json.loads`, or an argument of
`json.dumps`).  Numbers are integers only. -/
inductive JVal where
  | null
  | bool (b : Bool)
  | num (n : Int)
  | str (s : String)
  | arr (xs : List JVal)
  | obj (fs : List (String × JVal))
deriving Repr

/-- Python truthiness (`bool(x)`) on modelled values. -/
def truthy : JVal → Bool
  | .null => false
  | .bool b => b
  | .num n => n != 0
  | .str s => s ≠ ""
  | .arr xs => !xs.isEmpty
  | .obj fs => !fs.isEmpty

/-- `isinstance(x, str)`. -/
def isStr : JVal → Bool
  | .str _ => true
  | _ => false

/-- Python `a or b`. -/
def pyOr (a b : JVal) : JVal := if truthy a then a else b

/-- Association-list lookup for modelled Python dicts (first match). -/
def lookupKV : List (String × JVal) → String → Option JVal
  | [], _ => none
  | (k', v) :: fs, k => if k' = k then some v else lookupKV fs k

/-- Python `d.get(k)` on a dict: the stored value, or `None` when absent. -/
def pyGet (fs : List (String × JVal)) (k : String) : JVal :=
  (lookupKV fs k).getD .null

/-- Python `k in d` on a dict. -/
def hasKey (fs : List (String × JVal)) (k : String) : Bool :=
  (lookupKV fs k).isSome

/-- Python dict assignment `d[k] = v`: overwrite in place when the key is
present (keeping its position), append otherwise. -/
def objUpd : List (String × JVal) → String → JVal → List (String × JVal)
  | [], k, v => [(k, v)]
  | (k', v') :: fs, k, v =>
    if k' = k then (k', v) :: fs else (k', v') :: objUpd fs k v

/-- Building a Python dict from a list of key/value pairs in order
(later occurrences of a key overwrite the earlier value in place). -/
def dictOfPairs (acc : List (String × JVal)) : List (String × JVal) → List (String × JVal)
  | [] => acc
  | (k, v) :: rest => dictOfPairs (objUpd acc k v) rest

/-- `isinstance(x, int)` together with the integer value: in Python `bool`
is a subclass of `int`, so `True`/`False` count as the integers 1/0. -/
def pyIntVal : JVal → Option Int
  | .num n => some n
  | .bool b => some (if b then 1 else 0)
  | _ => none

/-- Decimal digit as a character. -/
def digitChar (d : Nat) : Char := Char.ofNat (48 + d)

/-- Decimal digits of a natural number, most significant first (fueled;
fuel `n+1` always suffices). -/
def natDigitsAux : Nat → Nat → List Char → List Char
  | 0, _, acc => acc
  | f + 1, n, acc =>
    if n < 10 then digitChar n :: acc
    else natDigitsAux f (n / 10) (digitChar (n % 10) :: acc)

def natDigits (n : Nat) : List Char := natDigitsAux (n + 1) n []

/-- Characters of the Python decimal rendering of an integer. -/
def intChars (i : Int) : List Char :=
  if i < 0 then '-' :: natDigits (-i).toNat else natDigits i.toNat

def strOfChars (cs : List Char) : String := String.mk cs

/-- Python `str(n)` for an integer. -/
def natToString (n : Nat) : String := strOfChars (natDigits n)

mutual
/-- Python `repr` of a modelled value (the string `str` builds for
containers).  String escaping inside `repr` is not modelled: the values
the program prints this way never contain quotes. -/
def pyRepr : JVal → String
  | .null => "None"
  | .bool b => if b then "True" else "False"
  | .num n => strOfChars (intChars n)
  | .str s => "'" ++ s ++ "'"
  | .arr xs => "[" ++ pyReprList xs ++ "]"
  | .obj fs => "\x7b" ++ pyReprFields fs ++ "\x7d"

def pyReprList : List JVal → String
  | [] => ""
  | [x] => pyRepr x
  | x :: y :: xs => pyRepr x ++ ", " ++ pyReprList (y :: xs)

def pyReprFields : List (String × JVal) → String
  | [] => ""
  | [(k, v)] => "'" ++ k ++ "': " ++ pyRepr v
  | (k, v) :: p :: fs => "'" ++ k ++ "': " ++ pyRepr v ++ ", " ++ pyReprFields (p :: fs)
end

/-- Python `str(x)`. -/
def pyStr : JVal → String
  | .str s => s
  | v => pyRepr v

/-- Python iteration `[… for o in x]`: lists yield their elements, strings
their characters, dicts their keys; other values raise `TypeError`
(modelled as `none`). -/
def pyIter : JVal → Option (List JVal)
  | .arr xs => some xs
  | .str s => some (s.toList.map fun c => .str (strOfChars [c]))
  | .obj fs => some (fs.map fun kv => .str kv.1)
  | _ => none

/-! ### Decimal digits: correctness of the fueled rendering -/

theorem natDigitsAux_acc : ∀ (f n : Nat) (a : List Char),
    natDigitsAux f n a = natDigitsAux f n [] ++ a := by
  intro f
  induction f with
  | zero => intro n a; rfl
  | succ f ih =>
    intro n a
    by_cases h : n < 10
    · simp [natDigitsAux, h]
    · simp only [natDigitsAux, if_neg h]
      rw [ih (n / 10), ih (n / 10) [digitChar (n % 10)]]
      simp

theorem natDigitsAux_fuel : ∀ (n f g : Nat) (a : List Char), n < f → n < g →
    natDigitsAux f n a = natDigitsAux g n a := by
  intro n
  induction n using Nat.strong_induction_on with
  | _ n ih =>
    intro f g a hf hg
    cases f with
    | zero => omega
    | succ f =>
      cases g with
      | zero => omega
      | succ g =>
        by_cases h : n < 10
        · simp [natDigitsAux, h]
        · simp only [natDigitsAux, if_neg h]
          have hlt : n / 10 < n := Nat.div_lt_self (by omega) (by omega)
          exact ih (n / 10) hlt f g _ (by omega) (by omega)

theorem natDigits_lt (n : Nat) (h : n < 10) : natDigits n = [digitChar n] := by
  simp [natDigits, natDigitsAux, h]

theorem natDigits_ge (n : Nat) (h : 10 ≤ n) :
    natDigits n = natDigits (n / 10) ++ [digitChar (n % 10)] := by
  have hlt : n / 10 < n := Nat.div_lt_self (by omega) (by omega)
  unfold natDigits
  simp only [natDigitsAux, if_neg (Nat.not_lt.mpr h)]
  rw [natDigitsAux_fuel (n / 10) n (n / 10 + 1) _ (by omega) (by omega)]
  exact natDigitsAux_acc _ _ _

theorem digitChar_toNat (d : Nat) (h : d < 10) : (digitChar d).toNat = 48 + d := by
  interval_cases d <;> decide

theorem digitChar_isDigit (d : Nat) (h : d < 10) : (digitChar d).isDigit = true := by
  interval_cases d <;> decide

theorem digitChar_ne_zero (d : Nat) (h1 : 1 ≤ d) (h2 : d < 10) : digitChar d ≠ '0' := by
  interval_cases d <;> decide

theorem natDigits_all_digit : ∀ n, ∀ c ∈ natDigits n, c.isDigit = true := by
  intro n
  induction n using Nat.strong_induction_on with
  | _ n ih =>
    intro c hc
    by_cases h : n < 10
    · rw [natDigits_lt n h] at hc
      simp only [List.mem_singleton] at hc
      subst hc
      exact digitChar_isDigit n h
    · rw [natDigits_ge n (Nat.le_of_not_lt h)] at hc
      rcases List.mem_append.mp hc with h1 | h1
      · exact ih (n / 10) (Nat.div_lt_self (by omega) (by omega)) c h1
      · simp only [List.mem_singleton] at h1
        subst h1
        exact digitChar_isDigit _ (Nat.mod_lt _ (by omega))

theorem natDigits_ne_nil (n : Nat) : natDigits n ≠ [] := by
  by_cases h : n < 10
  · rw [natDigits_lt n h]; simp
  · rw [natDigits_ge n (Nat.le_of_not_lt h)]; simp

theorem natDigits_cons (n : Nat) : ∃ c t, natDigits n = c :: t ∧ c.isDigit = true := by
  cases hd : natDigits n with
  | nil => exact absurd hd (natDigits_ne_nil n)
  | cons c t =>
    refine ⟨c, t, rfl, natDigits_all_digit n c ?_⟩
    rw [hd]; simp

theorem natDigits_head_ne_zero : ∀ n, 1 ≤ n → ∀ c t, natDigits n = c :: t → c ≠ '0' := by
  intro n
  induction n using Nat.strong_induction_on with
  | _ n ih =>
    intro h1 c t heq
    by_cases h : n < 10
    · rw [natDigits_lt n h] at heq
      have : c = digitChar n := by injection heq with h' _; exact h'.symm
      subst this
      exact digitChar_ne_zero n h1 h
    · have h10 : 10 ≤ n := Nat.le_of_not_lt h
      rw [natDigits_ge n h10] at heq
      obtain ⟨c', t', hm, _⟩ := natDigits_cons (n / 10)
      rw [hm] at heq
      simp only [List.cons_append] at heq
      have hc : c = c' := by injection heq with h' _; exact h'.symm
      subst hc
      exact ih (n / 10) (Nat.div_lt_self (by omega) (by omega))
        (by omega) c t' hm

def digitVal (c : Char) : Nat := c.toNat - 48

def digitsValFrom (i : Nat) (cs : List Char) : Nat :=
  cs.foldl (fun a c => 10 * a + digitVal c) i

def digitsVal (cs : List Char) : Nat := digitsValFrom 0 cs

theorem digitsVal_natDigits : ∀ n, digitsVal (natDigits n) = n := by
  intro n
  induction n using Nat.strong_induction_on with
  | _ n ih =>
    by_cases h : n < 10
    · rw [natDigits_lt n h]
      simp [digitsVal, digitsValFrom, digitVal, digitChar_toNat n h]
    · have h10 : 10 ≤ n := Nat.le_of_not_lt h
      rw [natDigits_ge n h10]
      have hiv : digitsVal (natDigits (n / 10)) = n / 10 :=
        ih (n / 10) (Nat.div_lt_self (by omega) (by omega))
      simp only [digitsVal, digitsValFrom, List.foldl_append] at *
      rw [hiv]
      simp only [List.foldl_cons, List.foldl_nil, digitVal,
        digitChar_toNat (n % 10) (Nat.mod_lt _ (by omega))]
      omega

/-! ### JSON number parsing (integers only) -/

/-- Greedy scan of decimal digits. -/
def takeDigits : List Char → List Char × List Char
  | [] => ([], [])
  | c :: cs =>
    if c.isDigit then
      let p := takeDigits cs
      (c :: p.1, p.2)
    else ([], c :: cs)

def headNotDigit : List Char → Bool
  | [] => true
  | c :: _ => !c.isDigit

theorem takeDigits_spec : ∀ (ds rest : List Char), (∀ c ∈ ds, c.isDigit = true) →
    headNotDigit rest = true → takeDigits (ds ++ rest) = (ds, rest) := by
  intro ds
  induction ds with
  | nil =>
    intro rest _ hrest
    cases rest with
    | nil => rfl
    | cons c cs =>
      simp only [headNotDigit, Bool.not_eq_true'] at hrest
      simp [takeDigits, hrest]
  | cons d ds ih =>
    intro rest hds hrest
    have hd : d.isDigit = true := hds d (by simp)
    have ihr := ih rest (fun c hc => hds c (by simp [hc])) hrest
    simp [takeDigits, hd, List.append_eq, ihr]

/-- The integer grammar of `json.loads` (a leading `0` may not be followed
by another digit; a fraction or exponent would make the number a float,
which is outside the model). -/
def parseUNum : List Char → Option (Nat × List Char)
  | [] => none
  | c :: cs =>
    if c = '0' then
      match cs with
      | [] => some (0, [])
      | c2 :: _ =>
        if c2.isDigit || c2 = '.' || c2 = 'e' || c2 = 'E' then none else some (0, cs)
    else if c.isDigit then
      let p := takeDigits cs
      match p.2 with
      | [] => some (digitsVal (c :: p.1), [])
      | c2 :: _ =>
        if c2 = '.' || c2 = 'e' || c2 = 'E' then none else some (digitsVal (c :: p.1), p.2)
    else none

def parseNum : List Char → Option (JVal × List Char)
  | [] => none
  | c :: cs =>
    if c = '-' then (parseUNum cs).map fun p => (.num (-(p.1 : Int)), p.2)
    else (parseUNum (c :: cs)).map fun p => (.num (p.1 : Int), p.2)

/-- Characters that may legitimately follow a serialized number inside a
serialized document (so that the greedy number scan stops exactly there). -/
def numDelim : List Char → Bool
  | [] => true
  | c :: _ => !(c.isDigit || c = '.' || c = 'e' || c = 'E')

theorem parseUNum_natDigits (n : Nat) (rest : List Char) (h : numDelim rest = true) :
    parseUNum (natDigits n ++ rest) = some (n, rest) := by
  by_cases h0 : n = 0
  · subst h0
    rw [natDigits_lt 0 (by omega)]
    cases rest with
    | nil => rfl
    | cons c2 cs2 =>
      simp only [numDelim, Bool.not_eq_true', Bool.or_eq_false_iff,
        decide_eq_false_iff_not] at h
      show parseUNum ('0' :: c2 :: cs2) = _
      simp only [parseUNum, if_pos rfl]
      simp [h.1.1.1, h.1.1.2, h.1.2, h.2]
  · obtain ⟨c, t, hcons, hcdig⟩ := natDigits_cons n
    have hc0 : c ≠ '0' := natDigits_head_ne_zero n (by omega) c t hcons
    have htdig : ∀ x ∈ t, x.isDigit = true := by
      intro x hx
      exact natDigits_all_digit n x (by rw [hcons]; simp [hx])
    have hrestnd : headNotDigit rest = true := by
      cases rest with
      | nil => rfl
      | cons c2 cs2 =>
        simp only [numDelim, Bool.not_eq_true', Bool.or_eq_false_iff] at h
        simp [headNotDigit, h.1.1.1]
    rw [hcons]
    show parseUNum (c :: (t ++ rest)) = _
    simp only [parseUNum, if_neg hc0, hcdig, if_true]
    have htake : takeDigits (t ++ rest) = (t, rest) := takeDigits_spec t rest htdig hrestnd
    rw [htake]
    have hval : digitsVal (c :: t) = n := by rw [← hcons]; exact digitsVal_natDigits n
    cases rest with
    | nil => simp [hval]
    | cons c2 cs2 =>
      simp only [numDelim, Bool.not_eq_true', Bool.or_eq_false_iff,
        decide_eq_false_iff_not] at h
      simp [h.1.1.2, h.1.2, h.2, hval]

theorem parseNum_intChars (i : Int) (rest : List Char) (h : numDelim rest = true) :
    parseNum (intChars i ++ rest) = some (.num i, rest) := by
  by_cases hneg : i < 0
  · simp only [intChars, if_pos hneg, List.cons_append]
    show parseNum ('-' :: (natDigits (-i).toNat ++ rest)) = _
    simp only [parseNum, if_pos rfl, parseUNum_natDigits _ rest h, Option.map_some']
    have : ((-i).toNat : Int) = -i := Int.toNat_of_nonneg (by omega)
    rw [this]
    simp
  · simp only [intChars, if_neg hneg]
    obtain ⟨c, t, hcons, hcdig⟩ := natDigits_cons i.toNat
    have hcm : c ≠ '-' := by
      intro hcm
      subst hcm
      simp [Char.isDigit] at hcdig
    rw [hcons]
    show parseNum (c :: (t ++ rest)) = _
    simp only [parseNum, if_neg hcm]
    rw [show c :: (t ++ rest) = (c :: t) ++ rest by simp, ← hcons,
      parseUNum_natDigits _ rest h, Option.map_some']
    have : (i.toNat : Int) = i := Int.toNat_of_nonneg (by omega)
    rw [this]

/-! ### JSON string escaping and parsing -/

/-- The escape sequence `json.dumps(..., ensure_ascii=False)` emits for one
character.  CPython escapes `"` and `\` and uses the short escapes for the
common control characters; other characters are emitted verbatim. -/
def escapeChar (c : Char) : List Char :=
  if c = '"' then ['\\', '"']
  else if c = '\\' then ['\\', '\\']
  else if c = '\n' then ['\\', 'n']
  else if c = '\t' then ['\\', 't']
  else if c = '\r' then ['\\', 'r']
  else if c = '\x08' then ['\\', 'b']
  else if c = '\x0c' then ['\\', 'f']
  else [c]

def escapeStr : List Char → List Char
  | [] => []
  | c :: cs => escapeChar c ++ escapeStr cs

/-- Decoding of a backslash escape by `json.loads`. -/
def unescape (c : Char) : Option Char :=
  if c = '"' then some '"'
  else if c = '\\' then some '\\'
  else if c = '/' then some '/'
  else if c = 'n' then some '\n'
  else if c = 't' then some '\t'
  else if c = 'r' then some '\r'
  else if c = 'b' then some '\x08'
  else if c = 'f' then some '\x0c'
  else none

/-- Scan of a JSON string body (the opening quote already consumed),
accumulating decoded characters in reverse. -/
def parseStrAux : List Char → List Char → Option (List Char × List Char)
  | [], _ => none
  | c :: cs, acc =>
    if c = '"' then some (acc.reverse, cs)
    else if c = '\\' then
      match cs with
      | [] => none
      | e :: rest =>
        match unescape e with
        | some d => parseStrAux rest (d :: acc)
        | none => none
    else parseStrAux cs (c :: acc)

theorem parseStrAux_escape : ∀ (cs : List Char) (acc rest : List Char),
    parseStrAux (escapeStr cs ++ '"' :: rest) acc = some (acc.reverse ++ cs, rest) := by
  intro cs
  induction cs with
  | nil =>
    intro acc rest
    rw [show escapeStr [] ++ '"' :: rest = '"' :: rest from rfl, parseStrAux.eq_def]
    simp
  | cons c cs ih =>
    intro acc rest
    show parseStrAux (escapeChar c ++ escapeStr cs ++ '"' :: rest) acc = _
    by_cases h1 : c = '"'
    · subst h1
      rw [show escapeChar '"' = ['\\', '"'] from rfl]
      simp only [List.cons_append, List.nil_append]
      rw [parseStrAux.eq_def]
      simp [unescape, ih]
    · by_cases h2 : c = '\\'
      · subst h2
        rw [show escapeChar '\\' = ['\\', '\\'] from rfl]
        simp only [List.cons_append, List.nil_append]
        rw [parseStrAux.eq_def]
        simp [unescape, ih]
      · by_cases h3 : c = '\n'
        · subst h3
          rw [show escapeChar '\n' = ['\\', 'n'] from rfl]
          simp only [List.cons_append, List.nil_append]
          rw [parseStrAux.eq_def]
          simp [unescape, ih]
        · by_cases h4 : c = '\t'
          · subst h4
            rw [show escapeChar '\t' = ['\\', 't'] from rfl]
            simp only [List.cons_append, List.nil_append]
            rw [parseStrAux.eq_def]
            simp [unescape, ih]
          · by_cases h5 : c = '\r'
            · subst h5
              rw [show escapeChar '\r' = ['\\', 'r'] from rfl]
              simp only [List.cons_append, List.nil_append]
              rw [parseStrAux.eq_def]
              simp [unescape, ih]
            · by_cases h6 : c = '\x08'
              · subst h6
                rw [show escapeChar '\x08' = ['\\', 'b'] from rfl]
                simp only [List.cons_append, List.nil_append]
                rw [parseStrAux.eq_def]
                simp [unescape, ih]
              · by_cases h7 : c = '\x0c'
                · subst h7
                  rw [show escapeChar '\x0c' = ['\\', 'f'] from rfl]
                  simp only [List.cons_append, List.nil_append]
                  rw [parseStrAux.eq_def]
                  simp [unescape, ih]
                · rw [show escapeChar c = [c] by
                    simp [escapeChar, h1, h2, h3, h4, h5, h6, h7]]
                  simp only [List.singleton_append, List.cons_append]
                  rw [parseStrAux.eq_def]
                  simp only [if_neg h1, if_neg h2, List.nil_append]
                  rw [ih]
                  simp

/-! ### `json.dumps` (default separators, `ensure_ascii=False`) -/

def lbrace : Char := '\x7b'
def rbrace : Char := '\x7d'

mutual
/-- Characters of `json.dumps(v, ensure_ascii=False)` (CPython default
separators `", "` and `": "`). -/
def dumpsV : JVal → List Char
  | .null => ['n', 'u', 'l', 'l']
  | .bool b => if b then ['t', 'r', 'u', 'e'] else ['f', 'a', 'l', 's', 'e']
  | .num i => intChars i
  | .str s => '"' :: (escapeStr s.toList ++ ['"'])
  | .arr xs => '[' :: (dumpsL xs ++ [']'])
  | .obj fs => lbrace :: (dumpsF fs ++ [rbrace])

def dumpsL : List JVal → List Char
  | [] => []
  | [x] => dumpsV x
  | x :: y :: ys => dumpsV x ++ (',' :: (' ' :: dumpsL (y :: ys)))

def dumpsF : List (String × JVal) → List Char
  | [] => []
  | [(k, v)] => '"' :: (escapeStr k.toList ++ ('"' :: (':' :: (' ' :: dumpsV v))))
  | (k, v) :: p :: fs =>
    '"' :: (escapeStr k.toList ++ ('"' :: (':' :: (' ' ::
      (dumpsV v ++ (',' :: (' ' :: dumpsF (p :: fs))))))))
end

def dumps (v : JVal) : String := strOfChars (dumpsV v)

/-! ### `json.loads` -/

def isWsC (c : Char) : Bool := c = ' ' || c = '\t' || c = '\n' || c = '\r'

def skipWs : List Char → List Char
  | [] => []
  | c :: cs => if isWsC c then skipWs cs else c :: cs

/-- Strip an expected literal. -/
def stripPre : List Char → List Char → Option (List Char)
  | [], cs => some cs
  | _ :: _, [] => none
  | p :: ps, c :: cs => if c = p then stripPre ps cs else none

mutual
/-- Recursive-descent JSON value parser (fueled; `loads` supplies ample
fuel).  Mirrors the grammar accepted by `json.loads` on the modelled
fragment: keywords, integers, strings, arrays, objects, with whitespace
between tokens. -/
def parseVal : Nat → List Char → Option (JVal × List Char)
  | 0, _ => none
  | f + 1, cs =>
    match skipWs cs with
    | [] => none
    | c :: rest =>
      if c = 'n' then (stripPre ['u', 'l', 'l'] rest).map fun r => (JVal.null, r)
      else if c = 't' then (stripPre ['r', 'u', 'e'] rest).map fun r => (JVal.bool true, r)
      else if c = 'f' then (stripPre ['a', 'l', 's', 'e'] rest).map fun r => (JVal.bool false, r)
      else if c = '"' then
        (parseStrAux rest []).map fun p => (JVal.str (strOfChars p.1), p.2)
      else if c = '[' then
        match skipWs rest with
        | [] => none
        | c2 :: r2 =>
          if c2 = ']' then some (.arr [], r2)
          else
            match parseItems f (c2 :: r2) with
            | some (xs, r) => some (.arr xs, r)
            | none => none
      else if c = lbrace then
        match skipWs rest with
        | [] => none
        | c2 :: r2 =>
          if c2 = rbrace then some (.obj [], r2)
          else
            match parseFields f (c2 :: r2) with
            | some (fs, r) => some (.obj (dictOfPairs [] fs), r)
            | none => none
      else parseNum (c :: rest)

def parseItems : Nat → List Char → Option (List JVal × List Char)
  | 0, _ => none
  | f + 1, cs =>
    match parseVal f cs with
    | none => none
    | some (v, rest) =>
      match skipWs rest with
      | [] => none
      | c :: r2 =>
        if c = ',' then
          match parseItems f (skipWs r2) with
          | some (xs, r) => some (v :: xs, r)
          | none => none
        else if c = ']' then some ([v], r2)
        else none

def parseFields : Nat → List Char → Option (List (String × JVal) × List Char)
  | 0, _ => none
  | f + 1, cs =>
    match skipWs cs with
    | [] => none
    | c :: rest =>
      if c = '"' then
        match parseStrAux rest [] with
        | none => none
        | some (kcs, r1) =>
          match skipWs r1 with
          | [] => none
          | c2 :: r2 =>
            if c2 = ':' then
              match parseVal f r2 with
              | none => none
              | some (v, r3) =>
                match skipWs r3 with
                | [] => none
                | c3 :: r4 =>
                  if c3 = ',' then
                    match parseFields f (skipWs r4) with
                    | some (fs, r) => some ((strOfChars kcs, v) :: fs, r)
                    | none => none
                  else if c3 = rbrace then some ([(strOfChars kcs, v)], r4)
                  else none
            else none
      else none
end

/-- `json.loads` on the modelled fragment: parse one value, allow trailing
whitespace only. -/
def loads (s : String) : Option JVal :=
  match parseVal (2 * s.toList.length + 2) s.toList with
  | some (v, rest) => if skipWs rest = [] then some v else none
  | none => none

/-- `json.loads(raw)` with Python fallback behavior of `get_ctx`: parse
failure returns the raw string itself. -/
def loadsOr (s : String) : JVal := (loads s).getD (.str s)

/-! ### Round-trip: `loads (dumps v) = some v` -/

/-- No duplicate keys among the pairs. -/
def dupFree : List (String × JVal) → Bool
  | [] => true
  | (k, _) :: fs => !hasKey fs k && dupFree fs

mutual
/-- Well-formedness of a modelled value as the image of a Python object:
no dict carries a duplicate key (a Python dict cannot). -/
def wfV : JVal → Bool
  | .arr xs => wfL xs
  | .obj fs => dupFree fs && wfF fs
  | _ => true

def wfL : List JVal → Bool
  | [] => true
  | x :: xs => wfV x && wfL xs

def wfF : List (String × JVal) → Bool
  | [] => true
  | (_, v) :: fs => wfV v && wfF fs
end

mutual
def sizeV : JVal → Nat
  | .arr xs => sizeL xs + 1
  | .obj fs => sizeF fs + 1
  | _ => 1

def sizeL : List JVal → Nat
  | [] => 0
  | x :: xs => sizeV x + sizeL xs + 1

def sizeF : List (String × JVal) → Nat
  | [] => 0
  | (_, v) :: fs => sizeV v + sizeF fs + 1
end

theorem hasKey_false_forall {fs : List (String × JVal)} {k : String}
    (h : hasKey fs k = false) : ∀ kv ∈ fs, kv.1 ≠ k := by
  induction fs with
  | nil => intro kv hkv; cases hkv
  | cons p fs ih =>
    intro kv hkv
    obtain ⟨k', v'⟩ := p
    simp only [hasKey, lookupKV] at h
    by_cases he : k' = k
    · simp [he] at h
    · simp only [if_neg he] at h
      rcases List.mem_cons.mp hkv with rfl | hm
      · exact he
      · exact ih h kv hm

theorem objUpd_append {acc : List (String × JVal)} {k : String} {v : JVal}
    (h : hasKey acc k = false) : objUpd acc k v = acc ++ [(k, v)] := by
  induction acc with
  | nil => rfl
  | cons p acc ih =>
    obtain ⟨k', v'⟩ := p
    simp only [hasKey, lookupKV] at h
    by_cases he : k' = k
    · simp [he] at h
    · simp only [if_neg he] at h
      simp only [objUpd, if_neg he, List.cons_append]
      rw [ih h]

theorem hasKey_append (a b : List (String × JVal)) (k : String) :
    hasKey (a ++ b) k = (hasKey a k || hasKey b k) := by
  induction a with
  | nil => simp [hasKey, lookupKV]
  | cons p a ih =>
    obtain ⟨k', v'⟩ := p
    by_cases he : k' = k
    · simp [hasKey, lookupKV, he]
    · simp only [List.cons_append, hasKey, lookupKV, if_neg he] at *
      exact ih

theorem dictOfPairs_eq : ∀ (fs acc : List (String × JVal)),
    (∀ kv ∈ fs, hasKey acc kv.1 = false) → dupFree fs = true →
    dictOfPairs acc fs = acc ++ fs := by
  intro fs
  induction fs with
  | nil => intro acc _ _; simp [dictOfPairs]
  | cons p fs ih =>
    intro acc hfresh hdf
    obtain ⟨k, v⟩ := p
    simp only [dupFree, Bool.and_eq_true, Bool.not_eq_true'] at hdf
    simp only [dictOfPairs]
    rw [objUpd_append (hfresh (k, v) (by simp))]
    rw [ih (acc ++ [(k, v)]) ?_ hdf.2]
    · simp
    · intro kv hkv
      rw [hasKey_append]
      have h1 : hasKey acc kv.1 = false := hfresh kv (by simp [hkv])
      have h2 : kv.1 ≠ k := hasKey_false_forall hdf.1 kv hkv
      have h3 : ¬(k = kv.1) := fun hk => h2 hk.symm
      rw [h1]
      simp [hasKey, lookupKV, h3]

theorem dictOfPairs_id {fs : List (String × JVal)} (h : dupFree fs = true) :
    dictOfPairs [] fs = fs := by
  rw [dictOfPairs_eq fs [] (fun kv _ => rfl) h]
  simp

theorem skipWs_cons_notWs (c : Char) (cs : List Char) (h : isWsC c = false) :
    skipWs (c :: cs) = c :: cs := by
  simp [skipWs, h]

theorem skipWs_cons_ws (c : Char) (cs : List Char) (h : isWsC c = true) :
    skipWs (c :: cs) = skipWs cs := by
  simp [skipWs, h]

theorem parseVal_ws_cons (f : Nat) (c : Char) (cs : List Char) (h : isWsC c = true) :
    parseVal f (c :: cs) = parseVal f cs := by
  cases f with
  | zero => rfl
  | succ f =>
    rw [parseVal.eq_2, parseVal.eq_2]
    rw [skipWs_cons_ws c cs h]

theorem stripPre_append : ∀ (p r : List Char), stripPre p (p ++ r) = some r := by
  intro p
  induction p with
  | nil => intro r; rfl
  | cons c p ih => intro r; simp [stripPre, ih]

theorem natDigits_head_digitChar : ∀ n : Nat, ∃ d t, d < 10 ∧ natDigits n = digitChar d :: t := by
  intro n
  induction n using Nat.strong_induction_on with
  | _ n ih =>
    by_cases h : n < 10
    · exact ⟨n, [], h, natDigits_lt n h⟩
    · obtain ⟨d, t, hd, ht⟩ := ih (n / 10) (Nat.div_lt_self (by omega) (by omega))
      refine ⟨d, t ++ [digitChar (n % 10)], hd, ?_⟩
      rw [natDigits_ge n (Nat.le_of_not_lt h), ht]
      simp

theorem digitChar_head_facts (d : Nat) (h : d < 10) :
    isWsC (digitChar d) = false ∧ digitChar d ≠ 'n' ∧ digitChar d ≠ 't' ∧
    digitChar d ≠ 'f' ∧ digitChar d ≠ '"' ∧ digitChar d ≠ '[' ∧
    digitChar d ≠ lbrace ∧ digitChar d ≠ ']' ∧ digitChar d ≠ rbrace ∧
    digitChar d ≠ ',' := by
  interval_cases d <;> exact ⟨by decide, by decide, by decide, by decide, by decide,
    by decide, by decide, by decide, by decide, by decide⟩

theorem intChars_head : ∀ i : Int, ∃ c t, intChars i = c :: t ∧ isWsC c = false ∧
    c ≠ 'n' ∧ c ≠ 't' ∧ c ≠ 'f' ∧ c ≠ '"' ∧ c ≠ '[' ∧ c ≠ lbrace ∧
    c ≠ ']' ∧ c ≠ rbrace ∧ c ≠ ',' := by
  intro i
  by_cases hneg : i < 0
  · refine ⟨'-', natDigits (-i).toNat, ?_, by decide, by decide, by decide, by decide,
      by decide, by decide, by decide, by decide, by decide, by decide⟩
    simp [intChars, hneg]
  · obtain ⟨d, t, hd, ht⟩ := natDigits_head_digitChar i.toNat
    obtain ⟨f1, f2, f3, f4, f5, f6, f7, f8, f9, f10⟩ := digitChar_head_facts d hd
    exact ⟨digitChar d, t, by simp [intChars, hneg, ht], f1, f2, f3, f4, f5, f6, f7, f8, f9, f10⟩

theorem dumpsV_head : ∀ v : JVal, ∃ c t, dumpsV v = c :: t ∧ isWsC c = false ∧
    c ≠ ']' ∧ c ≠ rbrace ∧ c ≠ ',' := by
  intro v
  cases v with
  | null => exact ⟨'n', _, rfl, by decide, by decide, by decide, by decide⟩
  | bool b =>
    cases b with
    | true => exact ⟨'t', _, rfl, by decide, by decide, by decide, by decide⟩
    | false => exact ⟨'f', _, rfl, by decide, by decide, by decide, by decide⟩
  | num i =>
    obtain ⟨c, t, hct, f1, _, _, _, _, _, _, f8, f9, f10⟩ := intChars_head i
    exact ⟨c, t, by simp [dumpsV, hct], f1, f8, f9, f10⟩
  | str s => exact ⟨'"', _, rfl, by decide, by decide, by decide, by decide⟩
  | arr xs => exact ⟨'[', _, rfl, by decide, by decide, by decide, by decide⟩
  | obj fs => exact ⟨lbrace, _, rfl, by decide, by decide, by decide, by decide⟩

theorem dumpsL_head : ∀ (x : JVal) (xs : List JVal), ∃ c t,
    dumpsL (x :: xs) = c :: t ∧ isWsC c = false ∧ c ≠ ']' ∧ c ≠ rbrace ∧ c ≠ ',' := by
  intro x xs
  obtain ⟨c, t, hct, f1, f2, f3, f4⟩ := dumpsV_head x
  cases xs with
  | nil => exact ⟨c, t, by rw [dumpsL, hct], f1, f2, f3, f4⟩
  | cons y ys =>
    refine ⟨c, t ++ (',' :: (' ' :: dumpsL (y :: ys))), ?_, f1, f2, f3, f4⟩
    rw [show dumpsL (x :: y :: ys) = dumpsV x ++ (',' :: (' ' :: dumpsL (y :: ys))) from rfl,
      hct]
    simp

def endTok : List Char → Bool
  | [] => true
  | c :: _ => c = ',' || c = ']' || c = rbrace

theorem endTok_numDelim {rest : List Char} (h : endTok rest = true) :
    numDelim rest = true := by
  cases rest with
  | nil => rfl
  | cons c cs =>
    simp only [endTok, Bool.or_eq_true, decide_eq_true_eq] at h
    rcases h with (h | h) | h <;> subst h <;> rfl

theorem strOfChars_toList (s : String) : strOfChars s.toList = s := rfl

theorem strOfChars_data (s : String) : strOfChars s.data = s := rfl

theorem dumpsF_quote : ∀ (kv : String × JVal) (fs : List (String × JVal)),
    ∃ t, dumpsF (kv :: fs) = '"' :: t := by
  intro kv fs
  obtain ⟨k, v⟩ := kv
  cases fs with
  | nil => exact ⟨_, rfl⟩
  | cons p fs => exact ⟨_, rfl⟩

theorem parse_dumps : ∀ f : Nat,
    (∀ (v : JVal) (rest : List Char), sizeV v < f → wfV v = true → endTok rest = true →
      parseVal f (dumpsV v ++ rest) = some (v, rest)) ∧
    (∀ (x : JVal) (xs : List JVal) (rest : List Char), sizeL (x :: xs) < f →
      wfL (x :: xs) = true → endTok rest = true →
      parseItems f (dumpsL (x :: xs) ++ (']' :: rest)) = some (x :: xs, rest)) ∧
    (∀ (kv : String × JVal) (fs : List (String × JVal)) (rest : List Char),
      sizeF (kv :: fs) < f → wfF (kv :: fs) = true → endTok rest = true →
      parseFields f (dumpsF (kv :: fs) ++ (rbrace :: rest)) = some (kv :: fs, rest)) := by
  intro f
  induction f using Nat.strong_induction_on with
  | _ f ih =>
    cases f with
    | zero =>
      refine ⟨fun v rest hsz => absurd hsz (by omega),
        fun x xs rest hsz => absurd hsz (by omega),
        fun kv fs rest hsz => absurd hsz (by omega)⟩
    | succ g =>
      have ihg := ih g (Nat.lt_succ_self g)
      refine ⟨?_, ?_, ?_⟩
      · -- parseVal
        intro v rest hsz hwf hend
        cases v with
        | null =>
          rw [show dumpsV .null ++ rest = 'n' :: ('u' :: 'l' :: 'l' :: rest) from rfl,
            parseVal.eq_2, skipWs_cons_notWs 'n' _ rfl]
          simp [stripPre]
        | bool b =>
          cases b with
          | true =>
            rw [show dumpsV (.bool true) ++ rest = 't' :: ('r' :: 'u' :: 'e' :: rest) from rfl,
              parseVal.eq_2, skipWs_cons_notWs 't' _ rfl]
            simp [stripPre]
          | false =>
            rw [show dumpsV (.bool false) ++ rest =
                'f' :: ('a' :: 'l' :: 's' :: 'e' :: rest) from rfl,
              parseVal.eq_2, skipWs_cons_notWs 'f' _ rfl]
            simp [stripPre]
        | num i =>
          obtain ⟨c, t, hct, g1, g2, g3, g4, g5, g6, g7, _, _, _⟩ := intChars_head i
          rw [show dumpsV (.num i) ++ rest = c :: (t ++ rest) by
              rw [show dumpsV (.num i) = intChars i from rfl, hct]; simp,
            parseVal.eq_2, skipWs_cons_notWs c _ g1]
          simp only [if_neg g2, if_neg g3, if_neg g4, if_neg g5, if_neg g6, if_neg g7]
          rw [show c :: (t ++ rest) = intChars i ++ rest by rw [hct]; simp]
          exact parseNum_intChars i rest (endTok_numDelim hend)
        | str s =>
          rw [show dumpsV (.str s) ++ rest = '"' :: (escapeStr s.toList ++ ('"' :: rest)) by
              rw [show dumpsV (.str s) = '"' :: (escapeStr s.toList ++ ['"']) from rfl]; simp,
            parseVal.eq_2, skipWs_cons_notWs '"' _ rfl]
          simp [parseStrAux_escape, strOfChars_toList, strOfChars_data]
        | arr xs =>
          cases xs with
          | nil =>
            rw [show dumpsV (.arr []) ++ rest = '[' :: (']' :: rest) from rfl,
              parseVal.eq_2, skipWs_cons_notWs '[' _ rfl]
            simp [skipWs, isWsC]
          | cons x xs =>
            obtain ⟨c2, t2, hct2, k1, k2, _, _⟩ := dumpsL_head x xs
            have hsub : dumpsL (x :: xs) ++ (']' :: rest) = c2 :: (t2 ++ (']' :: rest)) := by
              rw [hct2]; simp
            have hskip : skipWs (dumpsL (x :: xs) ++ (']' :: rest)) =
                c2 :: (t2 ++ (']' :: rest)) := by
              rw [hsub, skipWs_cons_notWs c2 _ k1]
            have hitems : parseItems g (c2 :: (t2 ++ (']' :: rest))) = some (x :: xs, rest) := by
              rw [← hsub]
              refine ihg.2.1 x xs rest ?_ ?_ hend
              · have : sizeV (.arr (x :: xs)) = sizeL (x :: xs) + 1 := rfl
                omega
              · have : wfV (.arr (x :: xs)) = wfL (x :: xs) := rfl
                rw [← this]; exact hwf
            rw [show dumpsV (.arr (x :: xs)) ++ rest =
                '[' :: (dumpsL (x :: xs) ++ (']' :: rest)) by
              rw [show dumpsV (.arr (x :: xs)) =
                '[' :: (dumpsL (x :: xs) ++ [']']) from rfl]; simp,
              parseVal.eq_2, skipWs_cons_notWs '[' _ rfl]
            simp [hskip, k2, hitems]
        | obj fs =>
          cases fs with
          | nil =>
            rw [show dumpsV (.obj []) ++ rest = lbrace :: (rbrace :: rest) from rfl,
              parseVal.eq_2, skipWs_cons_notWs lbrace _ rfl]
            simp [skipWs, isWsC, lbrace, rbrace]
          | cons kv fs =>
            obtain ⟨t2, hct2⟩ := dumpsF_quote kv fs
            have hsub : dumpsF (kv :: fs) ++ (rbrace :: rest) =
                '"' :: (t2 ++ (rbrace :: rest)) := by
              rw [hct2]; simp
            have hskip : skipWs (dumpsF (kv :: fs) ++ (rbrace :: rest)) =
                '"' :: (t2 ++ (rbrace :: rest)) := by
              rw [hsub, skipWs_cons_notWs '"' _ rfl]
            rw [show dumpsV (.obj (kv :: fs)) ++ rest =
                lbrace :: (dumpsF (kv :: fs) ++ (rbrace :: rest)) by
              rw [show dumpsV (.obj (kv :: fs)) =
                lbrace :: (dumpsF (kv :: fs) ++ [rbrace]) from rfl]; simp,
              parseVal.eq_2, skipWs_cons_notWs lbrace _ rfl]
            have hwf' : (dupFree (kv :: fs) && wfF (kv :: fs)) = true := by
              rw [show wfV (.obj (kv :: fs)) = (dupFree (kv :: fs) && wfF (kv :: fs)) from
                rfl] at hwf
              exact hwf
            simp only [Bool.and_eq_true] at hwf'
            have hfields : parseFields g ('"' :: (t2 ++ (rbrace :: rest))) =
                some (kv :: fs, rest) := by
              rw [← hsub]
              refine ihg.2.2 kv fs rest ?_ hwf'.2 hend
              have : sizeV (.obj (kv :: fs)) = sizeF (kv :: fs) + 1 := rfl
              omega
            have hr2 : ¬(('"' : Char) = rbrace) := by decide
            have hl1 : ¬(lbrace = 'n') := by decide
            have hl2 : ¬(lbrace = 't') := by decide
            have hl3 : ¬(lbrace = 'f') := by decide
            have hl4 : ¬(lbrace = '"') := by decide
            have hl5 : ¬(lbrace = '[') := by decide
            simp [hskip, hfields, dictOfPairs_id hwf'.1, hr2, hl1, hl2, hl3, hl4, hl5]
      · -- parseItems
        intro x xs rest hsz hwf hend
        have hwf' : (wfV x && wfL xs) = true := hwf
        simp only [Bool.and_eq_true] at hwf'
        cases xs with
        | nil =>
          have hv := ihg.1 x (']' :: rest) (by
            have : sizeL [x] = sizeV x + 1 := rfl
            omega) hwf'.1 rfl
          rw [show dumpsL [x] = dumpsV x from rfl, parseItems.eq_2, hv]
          simp [skipWs, isWsC]
        | cons y ys =>
          obtain ⟨c2, t2, hct2, k1, _, _, _⟩ := dumpsL_head y ys
          have hv := ihg.1 x (',' :: (' ' :: (dumpsL (y :: ys) ++ (']' :: rest)))) (by
            have : sizeL (x :: y :: ys) = sizeV x + sizeL (y :: ys) + 1 := rfl
            omega) hwf'.1 rfl
          rw [show dumpsL (x :: y :: ys) ++ (']' :: rest) =
              dumpsV x ++ (',' :: (' ' :: (dumpsL (y :: ys) ++ (']' :: rest)))) by
            rw [show dumpsL (x :: y :: ys) =
              dumpsV x ++ (',' :: (' ' :: dumpsL (y :: ys))) from rfl]; simp,
            parseItems.eq_2, hv]
          have hz : skipWs (dumpsL (y :: ys) ++ (']' :: rest)) =
              dumpsL (y :: ys) ++ (']' :: rest) := by
            conv_lhs => rw [show dumpsL (y :: ys) ++ (']' :: rest) =
              c2 :: (t2 ++ (']' :: rest)) by rw [hct2]; simp]
            rw [skipWs_cons_notWs c2 _ k1, hct2]
            simp
          have hrec := ihg.2.1 y ys rest (by
            have : sizeL (x :: y :: ys) = sizeV x + sizeL (y :: ys) + 1 := rfl
            omega) hwf'.2 hend
          simp [skipWs, isWsC, hz, hrec]
      · -- parseFields
        intro kv fs rest hsz hwf hend
        obtain ⟨k, v⟩ := kv
        have hwf' : (wfV v && wfF fs) = true := hwf
        simp only [Bool.and_eq_true] at hwf'
        cases fs with
        | nil =>
          rw [show dumpsF [(k, v)] ++ (rbrace :: rest) =
              '"' :: (escapeStr k.toList ++ ('"' :: (':' :: (' ' ::
                (dumpsV v ++ (rbrace :: rest)))))) by
            rw [show dumpsF [(k, v)] =
              '"' :: (escapeStr k.toList ++ ('"' :: (':' :: (' ' :: dumpsV v)))) from rfl]
            simp,
            parseFields.eq_2, skipWs_cons_notWs '"' _ rfl]
          have hv := ihg.1 v (rbrace :: rest) (by
            have : sizeF [(k, v)] = sizeV v + 1 := rfl
            omega) hwf'.1 rfl
          have hpw : parseVal g (' ' :: (dumpsV v ++ (rbrace :: rest))) =
              some (v, rbrace :: rest) := by
            rw [parseVal_ws_cons g ' ' _ rfl, hv]
          have hsw1 : skipWs (':' :: (' ' :: (dumpsV v ++ (rbrace :: rest)))) =
              ':' :: (' ' :: (dumpsV v ++ (rbrace :: rest))) := skipWs_cons_notWs ':' _ rfl
          have hsw2 : skipWs (rbrace :: rest) = rbrace :: rest :=
            skipWs_cons_notWs rbrace _ rfl
          have hr1 : ¬(rbrace = ',') := by decide
          simp [parseStrAux_escape, hsw1, hpw, hsw2, hr1, strOfChars_toList, strOfChars_data]
        | cons p fs =>
          obtain ⟨t2, hct2⟩ := dumpsF_quote p fs
          rw [show dumpsF ((k, v) :: p :: fs) ++ (rbrace :: rest) =
              '"' :: (escapeStr k.toList ++ ('"' :: (':' :: (' ' ::
                (dumpsV v ++ (',' :: (' ' :: (dumpsF (p :: fs) ++ (rbrace :: rest))))))))) by
            rw [show dumpsF ((k, v) :: p :: fs) =
              '"' :: (escapeStr k.toList ++ ('"' :: (':' :: (' ' ::
                (dumpsV v ++ (',' :: (' ' :: dumpsF (p :: fs)))))))) from rfl]
            simp,
            parseFields.eq_2, skipWs_cons_notWs '"' _ rfl]
          have hv := ihg.1 v (',' :: (' ' :: (dumpsF (p :: fs) ++ (rbrace :: rest)))) (by
            have : sizeF ((k, v) :: p :: fs) = sizeV v + sizeF (p :: fs) + 1 := rfl
            omega) hwf'.1 rfl
          have hpw : parseVal g (' ' :: (dumpsV v ++
              (',' :: (' ' :: (dumpsF (p :: fs) ++ (rbrace :: rest)))))) =
              some (v, ',' :: (' ' :: (dumpsF (p :: fs) ++ (rbrace :: rest)))) := by
            rw [parseVal_ws_cons g ' ' _ rfl, hv]
          have hz : skipWs (dumpsF (p :: fs) ++ (rbrace :: rest)) =
              dumpsF (p :: fs) ++ (rbrace :: rest) := by
            conv_lhs => rw [show dumpsF (p :: fs) ++ (rbrace :: rest) =
              '"' :: (t2 ++ (rbrace :: rest)) by rw [hct2]; simp]
            rw [skipWs_cons_notWs '"' _ rfl, hct2]
            simp
          have hrec := ihg.2.2 p fs rest (by
            have : sizeF ((k, v) :: p :: fs) = sizeV v + sizeF (p :: fs) + 1 := rfl
            omega) hwf'.2 hend
          have hsw1 : skipWs (':' :: (' ' :: (dumpsV v ++
              (',' :: (' ' :: (dumpsF (p :: fs) ++ (rbrace :: rest))))))) =
              ':' :: (' ' :: (dumpsV v ++
              (',' :: (' ' :: (dumpsF (p :: fs) ++ (rbrace :: rest)))))) :=
            skipWs_cons_notWs ':' _ rfl
          have hsw2 : skipWs (',' :: (' ' :: (dumpsF (p :: fs) ++ (rbrace :: rest)))) =
              ',' :: (' ' :: (dumpsF (p :: fs) ++ (rbrace :: rest))) :=
            skipWs_cons_notWs ',' _ rfl
          have hsw3 : skipWs (' ' :: (dumpsF (p :: fs) ++ (rbrace :: rest))) =
              skipWs (dumpsF (p :: fs) ++ (rbrace :: rest)) :=
            skipWs_cons_ws ' ' _ rfl
          simp [parseStrAux_escape, hsw1, hpw, hsw2, hsw3, hz, hrec, strOfChars_toList,
            strOfChars_data]

theorem sizeV_pos : ∀ v : JVal, 1 ≤ sizeV v := by
  intro v
  cases v <;> simp [sizeV]

theorem intChars_len_pos (i : Int) : 1 ≤ (intChars i).length := by
  obtain ⟨c, t, hct, _⟩ := intChars_head i
  rw [hct]
  simp

theorem size_le_dumps : ∀ n : Nat,
    (∀ v, sizeV v ≤ n → sizeV v ≤ (dumpsV v).length) ∧
    (∀ xs, sizeL xs ≤ n → sizeL xs ≤ (dumpsL xs).length + 1) ∧
    (∀ fs, sizeF fs ≤ n → sizeF fs ≤ (dumpsF fs).length + 1) := by
  intro n
  induction n using Nat.strong_induction_on with
  | _ n ih =>
    cases n with
    | zero =>
      refine ⟨fun v hv => absurd hv (by have := sizeV_pos v; omega), ?_, ?_⟩
      · intro xs hxs
        cases xs with
        | nil => simp [sizeL]
        | cons x xs => exact absurd hxs (by have := sizeV_pos x; simp [sizeL])
      · intro fs hfs
        cases fs with
        | nil => simp [sizeF]
        | cons kv fs =>
          obtain ⟨k, v⟩ := kv
          exact absurd hfs (by have := sizeV_pos v; simp [sizeF])
    | succ n =>
      have ihn := ih n (Nat.lt_succ_self n)
      refine ⟨?_, ?_, ?_⟩
      · intro v hv
        cases v with
        | null => simp [sizeV, dumpsV]
        | bool b => cases b <;> simp [sizeV, dumpsV]
        | num i =>
          have := intChars_len_pos i
          simp [sizeV, dumpsV]
          exact this
        | str s => simp [sizeV, dumpsV]
        | arr xs =>
          have hxs : sizeL xs ≤ n := by
            have : sizeV (.arr xs) = sizeL xs + 1 := rfl
            omega
          have := ihn.2.1 xs hxs
          have hs : sizeV (.arr xs) = sizeL xs + 1 := rfl
          have hd : (dumpsV (.arr xs)).length = (dumpsL xs).length + 2 := by
            rw [show dumpsV (.arr xs) = '[' :: (dumpsL xs ++ [']']) from rfl]
            simp
          omega
        | obj fs =>
          have hfs : sizeF fs ≤ n := by
            have : sizeV (.obj fs) = sizeF fs + 1 := rfl
            omega
          have := ihn.2.2 fs hfs
          have hs : sizeV (.obj fs) = sizeF fs + 1 := rfl
          have hd : (dumpsV (.obj fs)).length = (dumpsF fs).length + 2 := by
            rw [show dumpsV (.obj fs) = lbrace :: (dumpsF fs ++ [rbrace]) from rfl]
            simp
          omega
      · intro xs hxs
        cases xs with
        | nil => simp [sizeL]
        | cons x xs =>
          have hsz : sizeL (x :: xs) = sizeV x + sizeL xs + 1 := rfl
          have hx : sizeV x ≤ n := by omega
          have hxs' : sizeL xs ≤ n := by omega
          have h1 := ihn.1 x hx
          have h2 := ihn.2.1 xs hxs'
          cases xs with
          | nil =>
            have hdl : (dumpsL [x]).length = (dumpsV x).length := by
              rw [show dumpsL [x] = dumpsV x from rfl]
            have h0 : sizeL ([] : List JVal) = 0 := rfl
            omega
          | cons y ys =>
            have hd : (dumpsL (x :: y :: ys)).length =
                (dumpsV x).length + 2 + (dumpsL (y :: ys)).length := by
              rw [show dumpsL (x :: y :: ys) =
                dumpsV x ++ (',' :: (' ' :: dumpsL (y :: ys))) from rfl]
              simp
              omega
            omega
      · intro fs hfs
        cases fs with
        | nil => simp [sizeF]
        | cons kv fs =>
          obtain ⟨k, v⟩ := kv
          have hsz : sizeF ((k, v) :: fs) = sizeV v + sizeF fs + 1 := rfl
          have hv : sizeV v ≤ n := by omega
          have hfs' : sizeF fs ≤ n := by omega
          have h1 := ihn.1 v hv
          have h2 := ihn.2.2 fs hfs'
          cases fs with
          | nil =>
            have hd : (dumpsF [(k, v)]).length =
                (escapeStr k.toList).length + 4 + (dumpsV v).length := by
              rw [show dumpsF [(k, v)] =
                '"' :: (escapeStr k.toList ++ ('"' :: (':' :: (' ' :: dumpsV v)))) from rfl]
              simp
              omega
            simp [sizeF] at *
            omega
          | cons p ps =>
            have hd : (dumpsF ((k, v) :: p :: ps)).length =
                (escapeStr k.toList).length + 6 + (dumpsV v).length +
                  (dumpsF (p :: ps)).length := by
              rw [show dumpsF ((k, v) :: p :: ps) =
                '"' :: (escapeStr k.toList ++ ('"' :: (':' :: (' ' ::
                  (dumpsV v ++ (',' :: (' ' :: dumpsF (p :: ps)))))))) from rfl]
              simp
              omega
            omega

theorem toList_strOfChars (cs : List Char) : (strOfChars cs).toList = cs := rfl

/-- `json.loads` inverts `json.dumps` on every well-formed value. -/
theorem loads_dumps (v : JVal) (h : wfV v = true) : loads (dumps v) = some v := by
  unfold loads dumps
  rw [toList_strOfChars]
  have hfuel : sizeV v < 2 * (dumpsV v).length + 2 := by
    have h1 := (size_le_dumps (sizeV v)).1 v le_rfl
    omega
  have hp := (parse_dumps (2 * (dumpsV v).length + 2)).1 v [] hfuel h rfl
  rw [show dumpsV v ++ [] = dumpsV v by simp] at hp
  rw [hp]
  simp [skipWs]

/-! ### The Redis-backed session store (orchestrator/fsm.py)

The store is modelled per user: every Redis key of the source is namespaced
by the user id (`asb:fsm:UID`, `asb:ctx:UID`, `asb:quiz:UID`), so the slices
of distinct users are disjoint.  A record is `none` when absent or expired;
a present record carries the TTL most recently set for it. -/

def TTL_FSM : Nat := 48 * 3600
def TTL_CTX : Nat := 7 * 24 * 3600
def TTL_QUIZ : Nat := 2 * 3600

namespace State

def IDLE : String := "IDLE"

def PLANNING : String := "PLANNING"

def READY : String := "READY"

def QUIZZING : String := "QUIZZING"

end State

/-- The four admissible states of §4.2. -/
def allStates : List String := [State.IDLE, State.PLANNING, State.READY, State.QUIZZING]

/-- One user's slice of the Redis store: the FSM value, the context hash
(fields stored as strings) and the serialized quiz session. -/
structure UserStore where
  fsm : Option (String × Nat)
  ctx : Option (List (String × String) × Nat)
  quiz : Option (String × Nat)
deriving Repr

def emptyStore : UserStore := ⟨none, none, none⟩

/-- `get_state`: `r.get(...) or State.IDLE` (Python truthiness: an absent
record, and likewise an empty string, yields IDLE). -/
def get_state (st : UserStore) : String :=
  match st.fsm with
  | some (s, _) => if s = "" then State.IDLE else s
  | none => State.IDLE

/-- `set_state`: `r.setex(..., TTL_FSM, state)` — unconditional overwrite
renewing the TTL. -/
def set_state (st : UserStore) (state : String) : UserStore :=
  { st with fsm := some (state, TTL_FSM) }

/-- `ensure_state`: raise `ValueError` when the current state is not
allowed. -/
def ensure_state (st : UserStore) (allowed : List String) : Except String Unit :=
  if allowed.contains (get_state st) then .ok ()
  else .error ("Нужно состояние " ++ String.intercalate ", " allowed ++
    ", сейчас " ++ get_state st)

/-- Redis `HSET` of one field: overwrite in place or append. -/
def hsetUpd : List (String × String) → String → String → List (String × String)
  | [], k, v => [(k, v)]
  | (k', v') :: fs, k, v =>
    if k' = k then (k', v) :: fs else (k', v') :: hsetUpd fs k v

/-- The value `set_ctx` stores for one keyword argument: strings raw,
everything else `json.dumps`-serialized. -/
def serCtxVal : JVal → String
  | .str s => s
  | v => strOfChars (dumpsV v)

/-- `set_ctx`: merge the keyword arguments into the hash (serializing
non-strings), then `r.expire(key, TTL_CTX)` (a no-op when the key does not
exist). -/
def set_ctx (st : UserStore) (kwargs : List (String × JVal)) : UserStore :=
  if kwargs.isEmpty then
    match st.ctx with
    | none => st
    | some (fs, _) => { st with ctx := some (fs, TTL_CTX) }
  else
    let old := match st.ctx with
      | some (fs, _) => fs
      | none => []
    let fs' := kwargs.foldl (fun fs kv => hsetUpd fs kv.1 (serCtxVal kv.2)) old
    { st with ctx := some (fs', TTL_CTX) }

/-- `get_ctx`: `hgetall` then `json.loads` each value, falling back to the
raw string on parse failure. -/
def get_ctx (st : UserStore) : List (String × JVal) :=
  match st.ctx with
  | some (fs, _) => fs.map fun kv => (kv.1, loadsOr kv.2)
  | none => []

def clear_ctx (st : UserStore) : UserStore := { st with ctx := none }

/-- `set_quiz`: store the whole payload as JSON with TTL. -/
def set_quiz (st : UserStore) (payload : JVal) : UserStore :=
  { st with quiz := some (strOfChars (dumpsV payload), TTL_QUIZ) }

/-- `get_quiz`: `json.loads(raw) if raw else None`; a corrupt record makes
`json.loads` raise (modelled as `.error`). -/
def get_quiz (st : UserStore) : Except String (Option JVal) :=
  match st.quiz with
  | none => .ok none
  | some (raw, _) =>
    if raw = "" then .ok none
    else
      match loads raw with
      | some v => .ok (some v)
      | none => .error "json.JSONDecodeError"

def clear_quiz (st : UserStore) : UserStore := { st with quiz := none }

/-- `update_quiz`: read the payload, return `None` without writing when it
is absent or falsy, otherwise shallow-merge the patch (Python
`dict.update`), rewrite with renewed TTL and return the merged payload.
`current.update` on a non-dict payload raises `AttributeError`. -/
def update_quiz (st : UserStore) (patch : List (String × JVal)) :
    Except String (UserStore × Option JVal) :=
  match get_quiz st with
  | .error e => .error e
  | .ok none => .ok (st, none)
  | .ok (some cur) =>
    if truthy cur = false then .ok (st, none)
    else
      match cur with
      | .obj fs =>
        let merged := dictOfPairs fs patch
        .ok (set_quiz st (.obj merged), some (.obj merged))
      | _ => .error "AttributeError"

/-- `fsm_guard_transition`: read the current state; write `to_state` only
when the current state is in `from_states`; return the new state, or the
unchanged current one. -/
def fsm_guard_transition (st : UserStore) (from_states : List String) (to_state : String) :
    UserStore × String :=
  let current := get_state st
  if from_states.contains current then (set_state st to_state, to_state)
  else (st, current)

/-! ### Upstream call adapter (orchestrator/nodes.py)

The HTTP layer itself is external: an attempt's outcome (timeout /
connection error / 5xx, a 4xx business error with its extracted message, or
a 2xx with its parsed body) is a parameter of the model. -/

/-- Result of one `client.post` attempt inside `trigger_n8n_plan`, as the
source classifies it. -/
inductive N8nOutcome where
  | transient
  | clientError (code : Nat) (msg : Option String)
  | success (body : Option JVal)

/-- `fastapi.HTTPException`. -/
structure HErr where
  status_code : Nat
  detail : JVal
deriving Repr

/-- `StudyPlanInfo` (schemas.py): a document reference and optional
calendar metadata. -/
structure StudyPlanInfo where
  doc_url : JVal
  calendar_info : Option JVal
deriving Repr

/-- `_stub_plan`: the deterministic fallback plan. -/
def stub_plan : StudyPlanInfo :=
  ⟨.str "https://docs.google.com/document/d/FAKE_M2_PLAN",
   some (.obj [("created", .bool false), ("reason", .str "stub")])⟩

/-- `_coerce_calendar_info`. -/
def coerce_calendar_info : JVal → Option JVal
  | .null => none
  | .obj fs => some (.obj fs)
  | .str s =>
    match loads s with
    | some (.obj fs) => some (.obj fs)
    | _ => none
  | _ => none

/-- `it.get("ok") is True` on a dict. -/
def isOkTrue : JVal → Bool
  | .obj fs =>
    match lookupKV fs "ok" with
    | some (.bool true) => true
    | _ => false
  | _ => false

/-- `item.get("ok") is False` on a dict. -/
def isOkFalse : JVal → Bool
  | .obj fs =>
    match lookupKV fs "ok" with
    | some (.bool false) => true
    | _ => false
  | _ => false

/-- `_pick_ok_item`: first element with `ok=true`, else the first element
of a non-empty list, else the object itself, else `None`. -/
def pick_ok_item : Option JVal → Option JVal
  | none => none
  | some d =>
    match d with
    | .arr xs =>
      match xs.find? isOkTrue with
      | some it => some it
      | none => xs.head?
    | .obj fs => some (.obj fs)
    | _ => none

/-- `_safe_get`. -/
def safe_get (d : JVal) (key : String) : JVal :=
  match d with
  | .obj fs => pyGet fs key
  | _ => .null

/-- The 2xx branch of `trigger_n8n_plan`: select an item, reject a missing
or `ok=false` item (400) and a missing `doc_url` (422), normalize the
calendar metadata. -/
def process_success (body : Option JVal) : Except HErr StudyPlanInfo :=
  match pick_ok_item body with
  | none => .error ⟨400, .str "n8n: план не сформирован"⟩
  | some item =>
    if truthy item = false || isOkFalse item then
      let msg := match item with
        | .obj fs => if truthy item then pyGet fs "error" else .null
        | _ => .null
      .error ⟨400, pyOr msg (.str "n8n: план не сформирован")⟩
    else
      let doc_url := safe_get item "doc_url"
      if truthy doc_url = false then .error ⟨422, .str "n8n: не вернул doc_url"⟩
      else .ok ⟨doc_url, coerce_calendar_info (safe_get item "calendar_info")⟩

/-- The attempt loop of `trigger_n8n_plan` (`for attempt in range(1,
attempts + 1)`): a transient failure retries while attempts remain and
yields the stub plan once they are exhausted; a 4xx raises `HTTPException`
with the extracted message; a 2xx is processed.  The `raise last_exc` line
after the loop is unreachable (modelled as a 500). -/
def n8nGo (f : Nat → N8nOutcome) : Nat → Nat → Except HErr StudyPlanInfo
  | 0, _ => .error ⟨500, .str "unreachable"⟩
  | remaining + 1, attempt =>
    match f attempt with
    | .transient =>
      if 0 < remaining then n8nGo f remaining (attempt + 1)
      else .ok stub_plan
    | .clientError code msg => .error ⟨code, .str (msg.getD "n8n returned client error")⟩
    | .success body => process_success body

/-- `trigger_n8n_plan` with `attempts = 2`, attempt outcomes given by `f`. -/
def trigger_n8n_plan (f : Nat → N8nOutcome) : Except HErr StudyPlanInfo := n8nGo f 2 1

/-- `plan` simply forwards to `trigger_n8n_plan`. -/
def plan (f : Nat → N8nOutcome) : Except HErr StudyPlanInfo := trigger_n8n_plan f

/-- `QuizQuestion` (schemas.py). -/
structure QuizQuestion where
  q : String
  options : List String
  answer_index : Int
deriving Repr

/-- The `while len(options) < 4` padding loop of `_coerce_questions`
(four iterations always suffice: each one grows the list). -/
def padLoop : Nat → List String → List String
  | 0, l => l
  | f + 1, l =>
    if l.length < 4 then padLoop f (l ++ ["Вариант " ++ natToString (l.length + 1)])
    else l

def padOptions (l : List String) : List String := padLoop 4 l

/-- One iteration of `_coerce_questions`: build the prompt with Python
`or`-fallbacks, truncate/pad the stringified options to exactly 4, clamp a
non-integer or out-of-range answer index to 0.  A non-dict item raises
`AttributeError`; a truthy non-iterable `options` raises `TypeError`. -/
def coerce_question (item : JVal) : Except String QuizQuestion :=
  match item with
  | .obj fs =>
    let q := pyStr (pyOr (pyGet fs "q") (pyOr (pyGet fs "question") (.str "Вопрос")))
    match pyIter (pyOr (pyGet fs "options") (.arr [])) with
    | none => .error "TypeError"
    | some elems =>
      let options := padOptions ((elems.map pyStr).take 4)
      let idx := match pyIntVal (pyGet fs "answer_index") with
        | some i => if 0 ≤ i ∧ i < 4 then i else 0
        | none => 0
      .ok ⟨q, options, idx⟩
  | _ => .error "AttributeError"

/-- `_coerce_questions` over the raw list (the first failing item aborts
the whole call, as the Python exception would). -/
def coerce_questions : List JVal → Except String (List QuizQuestion)
  | [] => .ok []
  | item :: rest => do
    let qq ← coerce_question item
    let qs ← coerce_questions rest
    .ok (qq :: qs)

mutual
/-- The `walk` visitor of `_extract_questions_from_flowise`: collect, in
depth-first order, every dict carrying a `q`/`question` key together with
an `options` key. -/
def walkV : JVal → List JVal
  | .obj fs =>
    if (hasKey fs "q" || hasKey fs "question") && hasKey fs "options" then
      [JVal.obj [("q", pyOr (pyGet fs "q") (pyGet fs "question")),
        ("options", pyOr (pyGet fs "options") (.arr [])),
        ("answer_index",
          match pyIntVal (pyGet fs "answer_index") with
          | some _ => pyGet fs "answer_index"
          | none => .num 0)]]
    else walkF fs
  | .arr xs => walkL xs
  | _ => []

def walkL : List JVal → List JVal
  | [] => []
  | x :: xs => walkV x ++ walkL xs

def walkF : List (String × JVal) → List JVal
  | [] => []
  | (_, v) :: fs => walkV v ++ walkF fs
end

def extract_questions_from_flowise (data : JVal) : List JVal := walkV data

/-- `_fake_questions`. -/
def fake_questions (n : Int) (topic : String) : List JVal :=
  (List.range (max 1 n).toNat).map fun i =>
    .obj [("q", .str (natToString (i + 1) ++ ". Тема: " ++ topic ++
            ". Выберите верный вариант.")),
      ("options", .arr [.str "A", .str "B", .str "C", .str "D"]),
      ("answer_index", .num 0)]

/-! ### Orchestration façade (orchestrator/main.py)

Each endpoint is a function from the user's store slice (plus the outcome
of any external collaborator, which is a parameter at the model boundary)
to the new store, the HTTP response, and the list of state writes it
performed.  Each write is recorded as the pair (state read at the moment
of the write, state written). -/

/-- `StudyRequest` (the fields the orchestration core reads). -/
structure StudyRequest where
  topic : String
  depth : String
deriving Repr

/-- An endpoint's HTTP outcome: a value or an `HTTPException`. -/
inductive Resp (α : Type) where
  | ok (value : α)
  | httpError (status_code : Nat) (detail : JVal)

/-- The transition table of spec §4.2 (the out-of-scope administrative
reset excluded). -/
def transTable : List (String × String) :=
  [(State.IDLE, State.PLANNING), (State.PLANNING, State.READY),
   (State.PLANNING, State.IDLE), (State.READY, State.QUIZZING),
   (State.QUIZZING, State.READY)]

/-- `POST /study`: reject 409 while PLANNING/QUIZZING; else write PLANNING,
run `plan` (its outcome is the parameter `planResult`), then on success
write the context and READY, on failure write IDLE and re-raise. -/
def study (st : UserStore) (req : StudyRequest) (planResult : Except HErr StudyPlanInfo) :
    UserStore × Resp StudyPlanInfo × List (String × String) :=
  let s := get_state st
  if s = State.PLANNING ∨ s = State.QUIZZING then
    (st, .httpError 409 (.str ("Сейчас состояние: " ++ s ++ ". Завершите текущий процесс.")),
      [])
  else
    let st1 := set_state st State.PLANNING
    match planResult with
    | .ok info =>
      let st2 := set_ctx st1 [("topic", .str req.topic), ("level", .str req.depth),
        ("doc_url", info.doc_url), ("calendar_info", info.calendar_info.getD .null)]
      let s2 := get_state st2
      (set_state st2 State.READY, .ok info, [(s, State.PLANNING), (s2, State.READY)])
    | .error e =>
      let s2 := get_state st1
      (set_state st1 State.IDLE, .httpError e.status_code e.detail,
        [(s, State.PLANNING), (s2, State.IDLE)])

/-- Topic resolution `topic or str(ctx.get("topic") or "")` shared by
`/summary` and `/quiz`. -/
def resolveTopic (topicParam : Option String) (ctx : List (String × JVal)) : String :=
  match topicParam with
  | some t => if t ≠ "" then t else pyStr (pyOr (pyGet ctx "topic") (.str ""))
  | none => pyStr (pyOr (pyGet ctx "topic") (.str ""))

/-- `qq.dict()` for storing the quiz session. -/
def questionToJVal (qq : QuizQuestion) : JVal :=
  .obj [("q", .str qq.q), ("options", .arr (qq.options.map JVal.str)),
    ("answer_index", .num qq.answer_index)]

/-- `GET /quiz`: guarded READY→QUIZZING transition (409 naming the actual
state when it did not fire), topic resolution with a rollback to READY on
a missing topic (400), then the content call (its normalized result is the
parameter `questions`) and a fresh quiz session at index 0. -/
def quiz (st : UserStore) (topicParam : Option String) (questions : List QuizQuestion) :
    UserStore × Resp (List QuizQuestion) × List (String × String) :=
  let cur := get_state st
  let gr := fsm_guard_transition st [State.READY] State.QUIZZING
  let tr1 := if cur = State.READY then [(cur, State.QUIZZING)] else []
  if gr.2 ≠ State.QUIZZING then
    (gr.1, .httpError 409 (.str ("Нужно состояние READY, сейчас " ++ gr.2 ++
      ". Сначала /study.")), tr1)
  else
    let ctx := get_ctx gr.1
    let topic := resolveTopic topicParam ctx
    let level := pyStr (pyOr (pyGet ctx "level") (.str "basic"))
    if topic = "" then
      let s2 := get_state gr.1
      (set_state gr.1 State.READY,
        .httpError 400 (.str "Тема не определена. Сначала вызовите /study."),
        tr1 ++ [(s2, State.READY)])
    else
      let payload : JVal := .obj [("questions", .arr (questions.map questionToJVal)),
        ("current_index", .num 0), ("topic", .str topic), ("level", .str level)]
      (set_quiz gr.1 payload, .ok questions, tr1)

/-- `POST /quiz/result`: clear the quiz session, write READY, then invoke
the progress-persistence collaborator (its outcome is the parameter
`persist`); an exception there is reported as a 500 after the session was
already cleared and the state already written. -/
def quiz_result (st : UserStore) (persist : Except String Unit) :
    UserStore × Resp Unit × List (String × String) :=
  let st1 := clear_quiz st
  let s := get_state st1
  let st2 := set_state st1 State.READY
  match persist with
  | .ok _ => (st2, .ok (), [(s, State.READY)])
  | .error e =>
    (st2, .httpError 500 (.str ("Не удалось сохранить результат: " ++ e)),
      [(s, State.READY)])

/-- `GET /summary`: require READY, resolve the topic, call the content
back-end (result is the parameter `summaryResp`); no state write. -/
def summary (st : UserStore) (topicParam : Option String) (summaryResp : String) :
    UserStore × Resp String × List (String × String) :=
  match ensure_state st [State.READY] with
  | .error e => (st, .httpError 409 (.str e), [])
  | .ok _ =>
    let ctx := get_ctx st
    let topic := resolveTopic topicParam ctx
    if topic = "" then
      (st, .httpError 400 (.str "Тема не определена. Сначала вызовите /study."), [])
    else (st, .ok summaryResp, [])

/-- `GET /progress`: read-only placeholder response; no state write. -/
def progress (st : UserStore) : UserStore × Resp JVal × List (String × String) :=
  let ctx := get_ctx st
  (st, .ok (.obj [("completion_percent", .num 20), ("avg_score", .num 0),
    ("weak_topics", .arr []), ("doc_url", pyGet ctx "doc_url")]), [])

/-! ### Support lemmas about the store operations -/

theorem get_state_set_ctx (st : UserStore) (kwargs : List (String × JVal)) :
    get_state (set_ctx st kwargs) = get_state st := by
  unfold set_ctx get_state
  by_cases h : kwargs.isEmpty
  · simp only [h, if_true]
    cases hc : st.ctx with
    | none => rfl
    | some p => rfl
  · simp only [h, if_false, Bool.false_eq_true]

theorem get_state_set_state (st : UserStore) (s : String) (h : s ≠ "") :
    get_state (set_state st s) = s := by
  simp [get_state, set_state, h]

/-! ### C8: `get_state` totality and defaults -/

/-- C8: `get_state` never raises (it is a total function of the store
slice); it returns IDLE whenever no record exists for the user (which is
also how an expired record presents itself), and the stored state when a
record with an admissible state exists. -/
theorem c8_get_state (st : UserStore) :
    (st.fsm = none → get_state st = State.IDLE) ∧
    (∀ s ttl, st.fsm = some (s, ttl) → s ∈ allStates → get_state st = s) := by
  constructor
  · intro h
    simp [get_state, h]
  · intro s ttl h hs
    by_cases he : s = ""
    · subst he
      simp [allStates, State.IDLE, State.PLANNING, State.READY, State.QUIZZING] at hs
    · simp [get_state, h, he]

theorem c8_get_state_witness :
    get_state ⟨some (State.READY, 17), none, none⟩ = State.READY ∧
    get_state emptyStore = State.IDLE :=
  ⟨(c8_get_state ⟨some (State.READY, 17), none, none⟩).2 State.READY 17 rfl
      (by simp [allStates]),
   (c8_get_state emptyStore).1 rfl⟩

/-! ### C2: the guarded transition -/

/-- C2: `fsm_guard_transition` reads the current state; when it is a
member of `from_states` it writes `to_state` with a renewed TTL and
returns `to_state`; otherwise it leaves the store untouched and returns
the current, unchanged state. -/
theorem c2_fsm_guard_transition (st : UserStore) (from_states : List String)
    (to_state : String) :
    (from_states.contains (get_state st) = true →
      fsm_guard_transition st from_states to_state =
        ({ st with fsm := some (to_state, TTL_FSM) }, to_state)) ∧
    (from_states.contains (get_state st) = false →
      fsm_guard_transition st from_states to_state = (st, get_state st)) := by
  constructor
  · intro h
    have h' : get_state st ∈ from_states := by simpa using h
    simp [fsm_guard_transition, h', set_state]
  · intro h
    have h' : get_state st ∉ from_states := by simpa using h
    simp [fsm_guard_transition, h']

theorem c2_fsm_guard_transition_witness :
    fsm_guard_transition emptyStore [State.IDLE] State.PLANNING =
      ({ emptyStore with fsm := some (State.PLANNING, TTL_FSM) }, State.PLANNING) ∧
    fsm_guard_transition emptyStore [State.READY] State.QUIZZING =
      (emptyStore, State.IDLE) :=
  ⟨(c2_fsm_guard_transition emptyStore [State.IDLE] State.PLANNING).1 rfl,
   (c2_fsm_guard_transition emptyStore [State.READY] State.QUIZZING).2 rfl⟩

/-! ### C4: starting planning in a conflicting state -/

/-- C4: for every user whose current state is PLANNING or QUIZZING,
`POST /study` raises the 409 state-conflict error naming the current
state and leaves the whole store slice (state, context, quiz session)
untouched. -/
theorem c4_study_conflict (st : UserStore) (req : StudyRequest)
    (planResult : Except HErr StudyPlanInfo)
    (h : get_state st = State.PLANNING ∨ get_state st = State.QUIZZING) :
    study st req planResult =
      (st, .httpError 409 (.str ("Сейчас состояние: " ++ get_state st ++
        ". Завершите текущий процесс.")), []) := by
  simp [study, h]

theorem c4_study_conflict_witness :
    study ⟨some (State.QUIZZING, TTL_FSM), none, none⟩ ⟨"algebra", "basic"⟩
        (.ok stub_plan) =
      (⟨some (State.QUIZZING, TTL_FSM), none, none⟩,
       .httpError 409 (.str ("Сейчас состояние: " ++ State.QUIZZING ++
         ". Завершите текущий процесс.")), []) := by
  have h := c4_study_conflict ⟨some (State.QUIZZING, TTL_FSM), none, none⟩
    ⟨"algebra", "basic"⟩ (.ok stub_plan) (Or.inr rfl)
  simpa using h

/-! ### C3: recording a quiz result survives persistence failure -/

/-- C3: `POST /quiz/result` deletes the stored quiz session and writes
READY (renewing the TTL) before the progress-persistence collaborator
runs: the final store does not depend on the collaborator's outcome, a
success answers ok and a failure is reported as a 500 error — the deletion
and the transition are never rolled back. -/
theorem c3_quiz_result (st : UserStore) (persist : Except String Unit) :
    (quiz_result st persist).1.quiz = none ∧
    (quiz_result st persist).1.fsm = some (State.READY, TTL_FSM) ∧
    (quiz_result st persist).1 = (quiz_result st (.ok ())).1 ∧
    (persist = .ok () → (quiz_result st persist).2.1 = .ok ()) ∧
    (∀ e, persist = .error e → (quiz_result st persist).2.1 =
      .httpError 500 (.str ("Не удалось сохранить результат: " ++ e))) := by
  cases persist with
  | ok u =>
    refine ⟨rfl, rfl, rfl, fun _ => rfl, ?_⟩
    intro e he
    cases he
  | error e =>
    refine ⟨rfl, rfl, rfl, ?_, ?_⟩
    · intro he
      cases he
    · intro e' he
      cases he
      rfl

theorem c3_quiz_result_witness :
    (quiz_result ⟨some (State.QUIZZING, 3), none, some ("payload", 5)⟩
        (.error "db down")).1.quiz = none ∧
    (quiz_result ⟨some (State.QUIZZING, 3), none, some ("payload", 5)⟩
        (.error "db down")).1.fsm = some (State.READY, TTL_FSM) ∧
    (quiz_result ⟨some (State.QUIZZING, 3), none, some ("payload", 5)⟩
        (.error "db down")).2.1 =
      .httpError 500 (.str ("Не удалось сохранить результат: " ++ "db down")) := by
  have h := c3_quiz_result ⟨some (State.QUIZZING, 3), none, some ("payload", 5)⟩
    (.error "db down")
  exact ⟨h.1, h.2.1, h.2.2.2.2 "db down" rfl⟩

/-! ### C5: exhausted transient retries yield the stub plan -/

/-- C5: when both attempts of the planning call fail with a transient
error (timeout, connection error or 5xx), `plan` returns the deterministic
stub — the fixed placeholder document reference and
`calendar_info = {created: false, reason: "stub"}`, whose `created` flag
is `false` — and raises nothing past the façade boundary (the result is
`Except.ok`, not an error). -/
theorem c5_plan_stub (f : Nat → N8nOutcome) (h1 : f 1 = .transient)
    (h2 : f 2 = .transient) :
    plan f = .ok stub_plan ∧
    stub_plan.doc_url = .str "https://docs.google.com/document/d/FAKE_M2_PLAN" ∧
    stub_plan.calendar_info =
      some (.obj [("created", .bool false), ("reason", .str "stub")]) ∧
    lookupKV [("created", .bool false), ("reason", .str "stub")] "created" =
      some (.bool false) := by
  refine ⟨?_, rfl, rfl, rfl⟩
  simp [plan, trigger_n8n_plan, n8nGo, h1, h2]

theorem c5_plan_stub_witness :
    plan (fun _ => .transient) = .ok stub_plan :=
  (c5_plan_stub (fun _ => .transient) rfl rfl).1

/-! ### C10: `update_quiz` on absent, falsy, and non-empty payloads -/

/-- C10: `update_quiz` returns `None` and performs no write not only when
the stored record is absent (or expired) or empty, but for every falsy
parsed payload; only a non-empty payload is shallow-merged with the patch,
rewritten with a renewed TTL (`TTL_QUIZ`) and returned. -/
theorem c10_update_quiz (st : UserStore) (patch : List (String × JVal)) :
    (st.quiz = none → update_quiz st patch = .ok (st, none)) ∧
    (∀ ttl, st.quiz = some ("", ttl) → update_quiz st patch = .ok (st, none)) ∧
    (∀ raw ttl v, st.quiz = some (raw, ttl) → loads raw = some v → truthy v = false →
      update_quiz st patch = .ok (st, none)) ∧
    (∀ raw ttl fs, st.quiz = some (raw, ttl) → loads raw = some (.obj fs) → fs ≠ [] →
      update_quiz st patch =
        .ok ({ st with quiz := some (strOfChars (dumpsV (.obj (dictOfPairs fs patch))), TTL_QUIZ) }, some (.obj (dictOfPairs fs patch)))) := by
  refine ⟨?_, ?_, ?_, ?_⟩
  · intro h
    simp [update_quiz, get_quiz, h]
  · intro ttl h
    simp [update_quiz, get_quiz, h]
  · intro raw ttl v h hl hf
    by_cases hr : raw = ""
    · simp [update_quiz, get_quiz, h, hr]
    · simp [update_quiz, get_quiz, h, hr, hl, hf]
  · intro raw ttl fs h hl hne
    have hr : raw ≠ "" := by
      intro he
      subst he
      rw [show loads "" = none from rfl] at hl
      cases hl
    have ht : truthy (.obj fs) = true := by
      cases fs with
      | nil => exact absurd rfl hne
      | cons p ps => simp [truthy]
    simp [update_quiz, get_quiz, h, hr, hl, ht, set_quiz]

theorem c10_update_quiz_witness :
    update_quiz emptyStore [("current_index", .num 1)] = .ok (emptyStore, none) ∧
    update_quiz ⟨none, none, some ("0", 7)⟩ [("current_index", .num 1)] =
      .ok (⟨none, none, some ("0", 7)⟩, none) ∧
    update_quiz ⟨none, none, some ("\x7b\"current_index\": 0\x7d", 7)⟩
        [("current_index", .num 1)] =
      .ok (⟨none, none, some (strOfChars (dumpsV (.obj (dictOfPairs [("current_index", .num 0)] [("current_index", .num 1)]))), TTL_QUIZ)⟩, some (.obj (dictOfPairs [("current_index", .num 0)] [("current_index", .num 1)]))) := by
  refine ⟨(c10_update_quiz emptyStore _).1 rfl, ?_, ?_⟩
  · exact (c10_update_quiz ⟨none, none, some ("0", 7)⟩ _).2.2.1 "0" 7 (.num 0) rfl rfl rfl
  · exact (c10_update_quiz ⟨none, none, some ("\x7b\"current_index\": 0\x7d", 7)⟩ _).2.2.2
      "\x7b\"current_index\": 0\x7d" 7 [("current_index", .num 0)] rfl (by rfl)
      (by simp)

/-! ### C9: the `set_ctx`/`get_ctx` round-trip -/

theorem lookup_map_hsetUpd : ∀ (fs : List (String × String)) (k s : String),
    lookupKV ((hsetUpd fs k s).map (fun kv => (kv.1, loadsOr kv.2))) k =
      some (loadsOr s) := by
  intro fs
  induction fs with
  | nil => intro k s; simp [hsetUpd, lookupKV]
  | cons p fs ih =>
    intro k s
    obtain ⟨k', v'⟩ := p
    by_cases he : k' = k
    · simp [hsetUpd, he, lookupKV]
    · simp only [hsetUpd, if_neg he, List.map_cons, lookupKV, if_neg he]
      exact ih k s

theorem ctx_lookup_set (st : UserStore) (k : String) (v : JVal) :
    lookupKV (get_ctx (set_ctx st [(k, v)])) k = some (loadsOr (serCtxVal v)) := by
  unfold set_ctx get_ctx
  simp only [List.isEmpty_cons, if_false, Bool.false_eq_true, List.foldl_cons, List.foldl_nil]
  cases hc : st.ctx with
  | none => exact lookup_map_hsetUpd [] k (serCtxVal v)
  | some p => exact lookup_map_hsetUpd p.1 k (serCtxVal v)

/-- C9: writing one context field and reading it back is the identity for
every non-string (well-formed) value and for every string that does not
parse as JSON; a string that does parse as JSON comes back as the decoded
value instead — e.g. writing the string "42" reads back the number 42 — so
the round-trip is not the identity on all strings. -/
theorem c9_ctx_roundtrip (st : UserStore) (k : String) :
    (∀ v, isStr v = false → wfV v = true →
      lookupKV (get_ctx (set_ctx st [(k, v)])) k = some v) ∧
    (∀ s, loads s = none →
      lookupKV (get_ctx (set_ctx st [(k, .str s)])) k = some (.str s)) ∧
    (∀ s j, loads s = some j →
      lookupKV (get_ctx (set_ctx st [(k, .str s)])) k = some j) ∧
    (loads "42" = some (.num 42) ∧ JVal.num 42 ≠ JVal.str "42") := by
  refine ⟨?_, ?_, ?_, by rfl, fun h => JVal.noConfusion h⟩
  · intro v hstr hwf
    rw [ctx_lookup_set]
    have hser : serCtxVal v = strOfChars (dumpsV v) := by
      cases v <;> first
        | rfl
        | (exact absurd hstr (by simp [isStr]))
    rw [hser]
    have : loads (strOfChars (dumpsV v)) = some v := loads_dumps v hwf
    simp [loadsOr, this]
  · intro s hnone
    rw [ctx_lookup_set]
    simp [serCtxVal, loadsOr, hnone]
  · intro s j hsome
    rw [ctx_lookup_set]
    simp [serCtxVal, loadsOr, hsome]

theorem c9_ctx_roundtrip_witness :
    lookupKV (get_ctx (set_ctx emptyStore [("calendar_info",
        .obj [("created", .bool false), ("reason", .str "stub")])])) "calendar_info" =
      some (.obj [("created", .bool false), ("reason", .str "stub")]) ∧
    lookupKV (get_ctx (set_ctx emptyStore [("topic", .str "vectors")])) "topic" =
      some (.str "vectors") ∧
    lookupKV (get_ctx (set_ctx emptyStore [("level", .str "42")])) "level" =
      some (.num 42) := by
  refine ⟨?_, ?_, ?_⟩
  · exact (c9_ctx_roundtrip emptyStore "calendar_info").1
      (JVal.obj [("created", JVal.bool false), ("reason", JVal.str "stub")]) rfl (by rfl)
  · exact (c9_ctx_roundtrip emptyStore "topic").2.1 "vectors" (by rfl)
  · exact (c9_ctx_roundtrip emptyStore "level").2.2.1 "42" (JVal.num 42) (by rfl)

/-! ### C6: quiz normalization enforces invariant I3 -/

theorem padOptions_spec (l : List String) (h : l.length ≤ 4) :
    padOptions l = l ++ (List.range (4 - l.length)).map
      (fun j => "Вариант " ++ natToString (l.length + j + 1)) := by
  match l with
  | [] => rfl
  | [a] => rfl
  | [a, b] => rfl
  | [a, b, c] => rfl
  | [a, b, c, d] => rfl
  | a :: b :: c :: d :: e :: tl => simp at h

theorem padOptions_len (l : List String) (h : l.length ≤ 4) :
    (padOptions l).length = 4 := by
  rw [padOptions_spec l h]
  simp
  omega

/-- C6: whenever `_coerce_questions` succeeds, every produced question is
built from a dict item with an iterable (or absent/falsy) `options` value;
its option list is the stringified raw options truncated to 4 and padded
with the numbered placeholder labels up to exactly 4 entries; and its
answer index equals the raw `answer_index` when that is an integer (in the
Python sense, so booleans count) in [0,4), and 0 otherwise. -/
theorem c6_coerce_questions : ∀ (raw : List JVal) (qs : List QuizQuestion),
    coerce_questions raw = .ok qs →
    List.Forall₂ (fun item qq => ∃ fs elems,
      item = .obj fs ∧
      pyIter (pyOr (pyGet fs "options") (.arr [])) = some elems ∧
      qq.options = (elems.map pyStr).take 4 ++
        (List.range (4 - min 4 elems.length)).map
          (fun j => "Вариант " ++ natToString (min 4 elems.length + j + 1)) ∧
      qq.options.length = 4 ∧
      qq.answer_index = (match pyIntVal (pyGet fs "answer_index") with
        | some i => if 0 ≤ i ∧ i < 4 then i else 0
        | none => 0)) raw qs := by
  intro raw
  induction raw with
  | nil =>
    intro qs h
    rw [show coerce_questions [] = .ok [] from rfl] at h
    injection h with h
    subst h
    exact List.Forall₂.nil
  | cons item rest ih =>
    intro qs h
    cases hq : coerce_question item with
    | error e =>
      rw [show coerce_questions (item :: rest) =
        (coerce_question item).bind (fun qq =>
          (coerce_questions rest).bind (fun qs => .ok (qq :: qs))) from rfl, hq] at h
      cases h
    | ok qq =>
      cases hr : coerce_questions rest with
      | error e =>
        rw [show coerce_questions (item :: rest) =
          (coerce_question item).bind (fun qq =>
            (coerce_questions rest).bind (fun qs => .ok (qq :: qs))) from rfl, hq, hr] at h
        cases h
      | ok qs' =>
        rw [show coerce_questions (item :: rest) =
          (coerce_question item).bind (fun qq =>
            (coerce_questions rest).bind (fun qs => .ok (qq :: qs))) from rfl, hq, hr] at h
        injection h with h
        subst h
        refine List.Forall₂.cons ?_ (ih qs' hr)
        cases item with
        | obj fs =>
          cases hit : pyIter (pyOr (pyGet fs "options") (.arr [])) with
          | none =>
            rw [show coerce_question (.obj fs) =
              (match pyIter (pyOr (pyGet fs "options") (.arr [])) with
               | none => .error "TypeError"
               | some elems => .ok ⟨pyStr (pyOr (pyGet fs "q")
                    (pyOr (pyGet fs "question") (.str "Вопрос"))),
                  padOptions ((elems.map pyStr).take 4),
                  (match pyIntVal (pyGet fs "answer_index") with
                   | some i => if 0 ≤ i ∧ i < 4 then i else 0
                   | none => 0)⟩) from rfl, hit] at hq
            cases hq
          | some elems =>
            rw [show coerce_question (.obj fs) =
              (match pyIter (pyOr (pyGet fs "options") (.arr [])) with
               | none => .error "TypeError"
               | some elems => .ok ⟨pyStr (pyOr (pyGet fs "q")
                    (pyOr (pyGet fs "question") (.str "Вопрос"))),
                  padOptions ((elems.map pyStr).take 4),
                  (match pyIntVal (pyGet fs "answer_index") with
                   | some i => if 0 ≤ i ∧ i < 4 then i else 0
                   | none => 0)⟩) from rfl, hit] at hq
            injection hq with hq
            subst hq
            have hlen : ((elems.map pyStr).take 4).length = min 4 elems.length := by
              simp
            refine ⟨fs, elems, rfl, hit, ?_, ?_, rfl⟩
            · rw [padOptions_spec _ (by rw [hlen]; omega), hlen]
            · exact padOptions_len _ (by rw [hlen]; omega)
        | null =>
          rw [show coerce_question .null = .error "AttributeError" from rfl] at hq
          cases hq
        | bool b =>
          rw [show coerce_question (.bool b) = .error "AttributeError" from rfl] at hq
          cases hq
        | num n =>
          rw [show coerce_question (.num n) = .error "AttributeError" from rfl] at hq
          cases hq
        | str s =>
          rw [show coerce_question (.str s) = .error "AttributeError" from rfl] at hq
          cases hq
        | arr xs =>
          rw [show coerce_question (.arr xs) = .error "AttributeError" from rfl] at hq
          cases hq

theorem c6_coerce_questions_witness :
    coerce_questions [JVal.obj [("q", .str "Q"), ("options", .arr [.str "A"]),
        ("answer_index", .num 2)]] =
      .ok [⟨"Q", ["A", "Вариант 2", "Вариант 3", "Вариант 4"], 2⟩] ∧
    List.Forall₂ (fun (item : JVal) (qq : QuizQuestion) => ∃ fs elems,
      item = .obj fs ∧
      pyIter (pyOr (pyGet fs "options") (.arr [])) = some elems ∧
      qq.options = (elems.map pyStr).take 4 ++
        (List.range (4 - min 4 elems.length)).map
          (fun j => "Вариант " ++ natToString (min 4 elems.length + j + 1)) ∧
      qq.options.length = 4 ∧
      qq.answer_index = (match pyIntVal (pyGet fs "answer_index") with
        | some i => if 0 ≤ i ∧ i < 4 then i else 0
        | none => 0))
      [JVal.obj [("q", .str "Q"), ("options", .arr [.str "A"]),
        ("answer_index", .num 2)]]
      [⟨"Q", ["A", "Вариант 2", "Вариант 3", "Вариант 4"], 2⟩] :=
  ⟨rfl, c6_coerce_questions
    [JVal.obj [("q", .str "Q"), ("options", .arr [.str "A"]), ("answer_index", .num 2)]]
    [⟨"Q", ["A", "Вариант 2", "Вариант 3", "Вариант 4"], 2⟩] rfl⟩

/-! ### C7: the nested upstream quiz payload scenario -/

/-- The upstream response of the scenario:
`{"nodes":[{"output":[{"question":"Q1","options":["A","B"]}]}]}`. -/
def c7payload : JVal :=
  .obj [("nodes", .arr [.obj [("output", .arr [.obj [("question", .str "Q1"),
    ("options", .arr [.str "A", .str "B"])]])]])]

/-- C7: recursive extraction followed by normalization yields exactly one
question: prompt "Q1", exactly 4 options of which the last two are the
padded placeholder labels, and correct-answer index 0. -/
theorem c7_nested_extraction :
    extract_questions_from_flowise c7payload =
      [.obj [("q", .str "Q1"), ("options", .arr [.str "A", .str "B"]),
        ("answer_index", .num 0)]] ∧
    coerce_questions (extract_questions_from_flowise c7payload) =
      .ok [⟨"Q1", ["A", "B", "Вариант 3", "Вариант 4"], 0⟩] := by
  constructor
  · rfl
  · rfl

/-! ### C1: the transition table -/

theorem get_state_clear_quiz (st : UserStore) : get_state (clear_quiz st) = get_state st := rfl

/-- C1 fails as stated: `POST /quiz/result` performs no state guard, so
recording a quiz result for a user whose state is IDLE (here: the empty
store) writes READY from IDLE — a transition that is not an instance of
the table in spec §4.2. -/
theorem c1_counterexample :
    (quiz_result emptyStore (.ok ())).2.2 = [(State.IDLE, State.READY)] ∧
    (State.IDLE, State.READY) ∉ transTable := by
  refine ⟨rfl, ?_⟩
  decide

/-- The transitions the code actually performs: the table of §4.2 extended
with re-planning (start-planning is admitted from READY and then writes
PLANNING while the current state is READY). -/
def observedTable : List (String × String) :=
  transTable ++ [(State.READY, State.PLANNING)]

/-- C1 (amended): every state write performed by start-planning (for a
store holding one of the four admissible states) and by start-quiz is an
instance of the table of §4.2 extended with the re-planning entry
READY→PLANNING, and passes through its guard (each recorded pair carries
the state read at the moment of the write; start-quiz only ever writes
READY→QUIZZING and the rollback QUIZZING→READY, which are in the §4.2
table itself); summary and progress write no state; and recording a quiz
result writes READY from whatever the current state is — from QUIZZING as
the table says, but equally from any other state, because the operation
has no guard. -/
theorem c1_transitions :
    (∀ st req pr, get_state st ∈ allStates →
      ∀ p ∈ (study st req pr).2.2, p ∈ observedTable) ∧
    (∀ st tp qs, ∀ p ∈ (quiz st tp qs).2.2, p ∈ transTable) ∧
    (∀ st tp sr, (summary st tp sr).2.2 = []) ∧
    (∀ st, (progress st).2.2 = []) ∧
    (∀ st persist, (quiz_result st persist).2.2 = [(get_state st, State.READY)]) := by
  refine ⟨?_, ?_, ?_, ?_, ?_⟩
  · -- study
    intro st req pr hall p hp
    by_cases hc : get_state st = State.PLANNING ∨ get_state st = State.QUIZZING
    · simp [study, hc] at hp
    · have hs : get_state st = State.IDLE ∨ get_state st = State.READY := by
        simp only [allStates, List.mem_cons, List.not_mem_nil, or_false] at hall
        tauto
      have h1 : get_state (set_state st State.PLANNING) = State.PLANNING :=
        get_state_set_state st _ (by decide)
      cases pr with
      | ok info =>
        have htr : (study st req (Except.ok info)).2.2 =
            [(get_state st, State.PLANNING), (State.PLANNING, State.READY)] := by
          simp [study, hc, get_state_set_ctx, h1]
        rw [htr] at hp
        simp only [List.mem_cons, List.not_mem_nil, or_false] at hp
        rcases hp with rfl | rfl
        · rcases hs with h | h <;> rw [h] <;> simp [observedTable, transTable]
        · simp [observedTable, transTable]
      | error e =>
        have htr : (study st req (Except.error e)).2.2 =
            [(get_state st, State.PLANNING), (State.PLANNING, State.IDLE)] := by
          simp [study, hc, h1]
        rw [htr] at hp
        simp only [List.mem_cons, List.not_mem_nil, or_false] at hp
        rcases hp with rfl | rfl
        · rcases hs with h | h <;> rw [h] <;> simp [observedTable, transTable]
        · simp [observedTable, transTable]
  · -- quiz
    intro st tp qs p hp
    by_cases hr : get_state st = State.READY
    · have hcon : [State.READY].contains (get_state st) = true := by
        rw [hr]; rfl
      have hgr : fsm_guard_transition st [State.READY] State.QUIZZING =
          (set_state st State.QUIZZING, State.QUIZZING) := by
        simp only [fsm_guard_transition]
        rw [hcon]
        simp
      have h2 : get_state (set_state st State.QUIZZING) = State.QUIZZING :=
        get_state_set_state st _ (by decide)
      by_cases ht : resolveTopic tp (get_ctx (set_state st State.QUIZZING)) = ""
      · have htr : (quiz st tp qs).2.2 =
            [(State.READY, State.QUIZZING), (State.QUIZZING, State.READY)] := by
          simp [quiz, hgr, hr, ht, h2]
        rw [htr] at hp
        simp only [List.mem_cons, List.not_mem_nil, or_false] at hp
        rcases hp with rfl | rfl <;> simp [transTable]
      · have htr : (quiz st tp qs).2.2 = [(State.READY, State.QUIZZING)] := by
          simp [quiz, hgr, hr, ht]
        rw [htr] at hp
        simp only [List.mem_cons, List.not_mem_nil, or_false] at hp
        rcases hp with rfl
        simp [transTable]
    · have hmem : ¬(get_state st ∈ [State.READY]) := by
        simp only [List.mem_singleton]
        exact hr
      have hcon : [State.READY].contains (get_state st) = false := by
        simpa using hmem
      have hgr : fsm_guard_transition st [State.READY] State.QUIZZING =
          (st, get_state st) := by
        simp only [fsm_guard_transition]
        rw [hcon]
        simp
      have hnq : ¬(State.QUIZZING = State.READY) := by decide
      by_cases hq : get_state st = State.QUIZZING
      · by_cases ht : resolveTopic tp (get_ctx st) = ""
        · have htr : (quiz st tp qs).2.2 = [(State.QUIZZING, State.READY)] := by
            simp [quiz, hgr, hr, hq, ht, hnq]
          rw [htr] at hp
          simp only [List.mem_cons, List.not_mem_nil, or_false] at hp
          rcases hp with rfl
          simp [transTable]
        · have htr : (quiz st tp qs).2.2 = [] := by
            simp [quiz, hgr, hr, hq, ht, hnq]
          rw [htr] at hp
          cases hp
      · have htr : (quiz st tp qs).2.2 = [] := by
          simp [quiz, hgr, hr, hq]
        rw [htr] at hp
        cases hp
  · -- summary
    intro st tp sr
    unfold summary
    cases h : ensure_state st [State.READY] with
    | error e => rfl
    | ok u =>
      by_cases ht : resolveTopic tp (get_ctx st) = "" <;> simp [ht]
  · -- progress
    intro st
    rfl
  · -- quiz result
    intro st persist
    cases persist <;> rfl

theorem c1_transitions_witness :
    (State.IDLE, State.PLANNING) ∈ observedTable :=
  c1_transitions.1 emptyStore ⟨"algebra", "basic"⟩ (.ok stub_plan) (by decide)
    (State.IDLE, State.PLANNING)
    (by rw [show (study emptyStore ⟨"algebra", "basic"⟩ (.ok stub_plan)).2.2 =
      [(State.IDLE, State.PLANNING), (State.PLANNING, State.READY)] from rfl]; simp)
